import Mathlib

/-!
Verification development for the search core of the `kissat-optimized` SAT
solver.  The definitions below are shallow embeddings of the C functions in
`src/simdscan.c`, `src/simdscan.h`, `src/proplit.h`, `src/decide.c`,
`src/reduce.c`, `src/restart.c` and `src/binindex.c`.  Machine integers are
modelled as `Nat`/`Int`; the tri-state `value` type (an `int8_t` holding
-1, 0 or +1) is modelled as `Int`; bounded C loops are modelled by
structurally recursive functions whose fuel argument is exactly the loop
bound, so every definition evaluates by kernel reduction.
-/

namespace Kissat

/-! ## Literal value scans (`src/simdscan.h`, `src/simdscan.c`)

`values : Nat → Int` models the solver's `value *values` array
(`values[lit] ∈ {-1, 0, 1}`); `lits : List Nat` models the literal array of a
clause; out-of-range reads default to `0`, which the well-formedness
hypotheses of the theorems below exclude. -/

/-- `scalar_find_non_false` (`simdscan.h:100-115`), written as a loop over the
remaining count `n = end_idx - i`.  Returns `some (lit, i)` for the first
index `i` with `values[lits[i]] ≥ 0`, like the C function's two out
parameters, and `none` where the C function returns `false`. -/
def scalarScan (values : Nat → Int) (lits : List Nat) : Nat → Nat → Option (Nat × Nat)
  | _, 0 => none
  | i, n + 1 =>
    let lit := lits.getD i 0
    if 0 ≤ values lit then some (lit, i)
    else scalarScan values lits (i + 1) n

/-- `scalar_find_non_false (values, lits, start_idx, end_idx, …)`. -/
def scalar_find_non_false (values : Nat → Int) (lits : List Nat)
    (start_idx end_idx : Nat) : Option (Nat × Nat) :=
  scalarScan values lits start_idx (end_idx - start_idx)

/-- Alignment pre-loop of `avx512_find_non_false` (`simdscan.c:123-131`):
scalar scan while `(uintptr_t)(lits + i) & 63 ≠ 0`.  Since `lits` is an array
of 4-byte `unsigned`, the address of `lits + i` is `base + 4*i`; with
`align := (base / 4) % 16` the condition is `(align + i) % 16 ≠ 0`.  Returns
the scan result together with the index reached. -/
def avx512Pre (values : Nat → Int) (lits : List Nat) (align : Nat) :
    Nat → Nat → Option (Nat × Nat) × Nat
  | i, 0 => (none, i)
  | i, n + 1 =>
    if (align + i) % 16 = 0 then (none, i)
    else
      let lit := lits.getD i 0
      if 0 ≤ values lit then (some (lit, i), i)
      else avx512Pre values lits align (i + 1) n

/-- One 16-lane batch of the AVX-512 main loop (`simdscan.c:134-155`),
modelled bit by bit.  `_mm512_i32gather_epi32 (lit_indices, values, 1)` loads,
for lane `k`, the four bytes `values[lits[i+k] + 0 .. 3]` (little endian).
`_mm512_cmpge_epi8_mask` compares the register bytewise, producing a 64-bit
mask whose bit `b` corresponds to byte `b % 4` of lane `b / 4`; the C code
stores it into a `__mmask16`, keeping only bits 0..15.  Bit `b` of the kept
mask is therefore `values[lits[i + b/4] + b%4] ≥ 0`. -/
def avx512BatchMask (values : Nat → Int) (lits : List Nat) (i : Nat) : List Bool :=
  (List.range 16).map fun b => decide (0 ≤ values (lits.getD (i + b / 4) 0 + b % 4))

/-- Main loop of `avx512_find_non_false` (`simdscan.c:134-155`): while
`i + 16 ≤ end_idx`, test the (truncated) byte mask; on a non-zero mask return
`lits[i + ctz mask]` and index `i + ctz mask`.  The fuel argument only bounds
the number of batches. -/
def avx512Main (values : Nat → Int) (lits : List Nat) (end_idx : Nat) :
    Nat → Nat → Option (Nat × Nat) × Nat
  | i, 0 => (none, i)
  | i, n + 1 =>
    if i + 16 ≤ end_idx then
      let mask := avx512BatchMask values lits i
      if mask.any id then
        let first_match := mask.findIdx id
        (some (lits.getD (i + first_match) 0, i + first_match), i)
      else avx512Main values lits end_idx (i + 16) n
    else (none, i)

/-- `avx512_find_non_false` (`simdscan.c:110-168`): alignment pre-loop, 16-wide
main loop, scalar tail. -/
def avx512_find_non_false (values : Nat → Int) (lits : List Nat) (align : Nat)
    (start_idx end_idx : Nat) : Option (Nat × Nat) :=
  match avx512Pre values lits align start_idx (end_idx - start_idx) with
  | (some r, _) => some r
  | (none, i1) =>
    match avx512Main values lits end_idx i1 end_idx with
    | (some r, _) => some r
    | (none, i2) => scalarScan values lits i2 (end_idx - i2)

/-- One 8-lane batch of `avx2_find_non_false` (`simdscan.c:338-374`): the
eight values are loaded with scalar accesses, compared bytewise against `-1`
(`_mm256_cmpeq_epi8` + `movemask`), and the match mask keeps positions whose
value is not `-1`. -/
def avx2BatchMask (values : Nat → Int) (lits : List Nat) (i : Nat) : List Bool :=
  (List.range 8).map fun k => decide (values (lits.getD (i + k) 0) ≠ -1)

/-- Main loop of `avx2_find_non_false` (`simdscan.c:338-374`). -/
def avx2Main (values : Nat → Int) (lits : List Nat) (end_idx : Nat) :
    Nat → Nat → Option (Nat × Nat) × Nat
  | i, 0 => (none, i)
  | i, n + 1 =>
    if i + 8 ≤ end_idx then
      let mask := avx2BatchMask values lits i
      if mask.any id then
        let first := mask.findIdx id
        (some (lits.getD (i + first) 0, i + first), i)
      else avx2Main values lits end_idx (i + 8) n
    else (none, i)

/-- `avx2_find_non_false` (`simdscan.c:313-387`): scalar for fewer than 8
literals, else 8-wide batches with a scalar tail. -/
def avx2_find_non_false (values : Nat → Int) (lits : List Nat)
    (start_idx end_idx : Nat) : Option (Nat × Nat) :=
  if end_idx - start_idx < 8 then scalarScan values lits start_idx (end_idx - start_idx)
  else
    match avx2Main values lits end_idx start_idx end_idx with
    | (some r, _) => some r
    | (none, i) => scalarScan values lits i (end_idx - i)

/-- 32-wide loop of `avx2_find_non_false_unrolled` (`simdscan.c:402-435`): the
four unrolled inner loops test `values[lits[i+j]] ≥ 0` for `j = 0..31` in
order, i.e. perform a scalar scan of the 32-element window. -/
def avx2Unrolled (values : Nat → Int) (lits : List Nat) (end_idx : Nat) :
    Nat → Nat → Option (Nat × Nat) × Nat
  | i, 0 => (none, i)
  | i, n + 1 =>
    if i + 32 ≤ end_idx then
      match scalarScan values lits i 32 with
      | some r => (some r, i)
      | none => avx2Unrolled values lits end_idx (i + 32) n
    else (none, i)

/-- `avx2_find_non_false_unrolled` (`simdscan.c:391-439`). -/
def avx2_find_non_false_unrolled (values : Nat → Int) (lits : List Nat)
    (start_idx end_idx : Nat) : Option (Nat × Nat) :=
  match avx2Unrolled values lits end_idx start_idx end_idx with
  | (some r, _) => some r
  | (none, i) => avx2_find_non_false values lits i end_idx

/-- `KISSAT_SIMD_THRESHOLD` (`simdscan.h:118`). -/
def KISSAT_SIMD_THRESHOLD : Nat := 8

/-- Dispatch configuration of `kissat_simd_find_non_false`: `avx512` models
`KISSAT_HAS_AVX512 && cpu_features.avx512f && cpu_features.avx512bw`, `avx2`
models `KISSAT_HAS_AVX2 && cpu_features.avx2`, and `align` is the word
alignment `(address of lits / 4) % 16` used by the AVX-512 pre-loop. -/
structure SimdCfg where
  avx512 : Bool
  avx2 : Bool
  align : Nat

/-- `kissat_simd_find_non_false` (`simdscan.c:443-482`): scalar below the
threshold, then AVX-512, then AVX2 (unrolled for 32 or more literals), then
the scalar fallback. -/
def kissat_simd_find_non_false (cfg : SimdCfg) (values : Nat → Int)
    (lits : List Nat) (start_idx end_idx : Nat) : Option (Nat × Nat) :=
  if end_idx - start_idx < KISSAT_SIMD_THRESHOLD then
    scalar_find_non_false values lits start_idx end_idx
  else if cfg.avx512 then
    avx512_find_non_false values lits cfg.align start_idx end_idx
  else if cfg.avx2 then
    if 32 ≤ end_idx - start_idx then
      avx2_find_non_false_unrolled values lits start_idx end_idx
    else avx2_find_non_false values lits start_idx end_idx
  else
    scalar_find_non_false values lits start_idx end_idx

/-- Concrete `values` array exhibiting the AVX-512 divergence: literal 1 is
true, literal 30 is unassigned, every other literal is false. -/
def c1Values : Nat → Int := fun n => if n = 1 then 1 else if n = 30 then 0 else -1

/-- Concrete clause literals: the 16 even literals `0, 2, …, 30`. -/
def c1Lits : List Nat := [0, 2, 4, 6, 8, 10, 12, 14, 16, 18, 20, 22, 24, 26, 28, 30]

/-! ### Range lemmas for the scan routines

Every variant of the non-false scan only ever reports an index inside the
requested range `[start_idx, end_idx)` together with the literal stored
there.  These facts are what the watched-literal invariant proof needs. -/

theorem scalarScan_range {values : Nat → Int} {lits : List Nat} {i n : Nat}
    {lit j : Nat} (h : scalarScan values lits i n = some (lit, j)) :
    i ≤ j ∧ j < i + n ∧ lit = lits.getD j 0 := by
  induction n generalizing i with
  | zero => simp [scalarScan] at h
  | succ n ih =>
    simp only [scalarScan] at h
    split at h
    · rw [Option.some.injEq, Prod.mk.injEq] at h
      obtain ⟨rfl, rfl⟩ := h
      exact ⟨le_refl _, by omega, rfl⟩
    · obtain ⟨h1, h2, h3⟩ := ih h
      exact ⟨by omega, by omega, h3⟩

theorem scalar_find_non_false_range {values : Nat → Int} {lits : List Nat}
    {a b lit j : Nat} (h : scalar_find_non_false values lits a b = some (lit, j)) :
    a ≤ j ∧ j < b ∧ lit = lits.getD j 0 := by
  obtain ⟨h1, h2, h3⟩ := scalarScan_range h
  refine ⟨h1, ?_, h3⟩
  by_cases hab : a ≤ b
  · omega
  · rw [Nat.sub_eq_zero_of_le (by omega)] at h2; omega

theorem avx512Pre_fst_range {values : Nat → Int} {lits : List Nat}
    {align i n lit j : Nat}
    (h : (avx512Pre values lits align i n).1 = some (lit, j)) :
    i ≤ j ∧ j < i + n ∧ lit = lits.getD j 0 := by
  induction n generalizing i with
  | zero => simp [avx512Pre] at h
  | succ n ih =>
    simp only [avx512Pre] at h
    split at h
    · simp at h
    · split at h
      · have h2 : lits.getD i 0 = lit ∧ i = j := by simpa using h
        obtain ⟨rfl, rfl⟩ := h2
        exact ⟨le_refl _, by omega, rfl⟩
      · obtain ⟨h1, h2, h3⟩ := ih h
        exact ⟨by omega, by omega, h3⟩

theorem avx512Pre_snd_range (values : Nat → Int) (lits : List Nat)
    (align i n : Nat) :
    i ≤ (avx512Pre values lits align i n).2 ∧
      (avx512Pre values lits align i n).2 ≤ i + n := by
  induction n generalizing i with
  | zero => simp [avx512Pre]
  | succ n ih =>
    simp only [avx512Pre]
    split
    · simp
    · split
      · simp
      · obtain ⟨h1, h2⟩ := ih (i + 1)
        exact ⟨by omega, by omega⟩

theorem mask_findIdx_lt {mask : List Bool} (h : mask.any id = true) :
    mask.findIdx id < mask.length :=
  List.findIdx_lt_length_of_exists (by simpa using List.any_eq_true.mp h)

theorem avx512Main_fst_range {values : Nat → Int} {lits : List Nat}
    {e i n lit j : Nat}
    (h : (avx512Main values lits e i n).1 = some (lit, j)) :
    i ≤ j ∧ j < e ∧ lit = lits.getD j 0 := by
  induction n generalizing i with
  | zero => simp [avx512Main] at h
  | succ n ih =>
    simp only [avx512Main] at h
    split at h
    · split at h
      · rename_i h16 hany
        have hlt : (avx512BatchMask values lits i).findIdx id < 16 := by
          have := mask_findIdx_lt hany
          simpa [avx512BatchMask] using this
        have h2 : lits.getD (i + (avx512BatchMask values lits i).findIdx id) 0 = lit ∧
            i + (avx512BatchMask values lits i).findIdx id = j := by simpa using h
        obtain ⟨rfl, rfl⟩ := h2
        exact ⟨by omega, by omega, rfl⟩
      · obtain ⟨h1, h2, h3⟩ := ih h
        exact ⟨by omega, h2, h3⟩
    · simp at h

theorem avx512Main_snd_range (values : Nat → Int) (lits : List Nat)
    (e i n : Nat) : i ≤ (avx512Main values lits e i n).2 := by
  induction n generalizing i with
  | zero => simp [avx512Main]
  | succ n ih =>
    simp only [avx512Main]
    split
    · split
      · simp
      · have := ih (i + 16); omega
    · simp

theorem avx512_find_non_false_range {values : Nat → Int} {lits : List Nat}
    {align a b lit j : Nat}
    (h : avx512_find_non_false values lits align a b = some (lit, j)) :
    a ≤ j ∧ j < b ∧ lit = lits.getD j 0 := by
  unfold avx512_find_non_false at h
  split at h
  · rename_i r i1 heq
    obtain ⟨h1, h2, h3⟩ :=
      avx512Pre_fst_range (show (avx512Pre values lits align a (b - a)).1 =
        some (lit, j) from by rw [heq]; simpa using h)
    refine ⟨h1, ?_, h3⟩
    by_cases hab : a ≤ b
    · omega
    · rw [Nat.sub_eq_zero_of_le (by omega)] at h2; omega
  · rename_i i1 heq
    have hi1 : a ≤ i1 := by
      have := (avx512Pre_snd_range values lits align a (b - a)).1
      rw [heq] at this; exact this
    split at h
    · rename_i r i2 heq2
      obtain ⟨h1, h2, h3⟩ :=
        avx512Main_fst_range (show (avx512Main values lits b i1 b).1 =
          some (lit, j) from by rw [heq2]; simpa using h)
      exact ⟨by omega, h2, h3⟩
    · rename_i i2 heq2
      have hi2 : i1 ≤ i2 := by
        have := avx512Main_snd_range values lits b i1 b
        rw [heq2] at this; exact this
      obtain ⟨h1, h2, h3⟩ := scalarScan_range h
      refine ⟨by omega, ?_, h3⟩
      by_cases hib : i2 ≤ b
      · omega
      · rw [Nat.sub_eq_zero_of_le (by omega)] at h2; omega

theorem avx2Main_fst_range {values : Nat → Int} {lits : List Nat}
    {e i n lit j : Nat}
    (h : (avx2Main values lits e i n).1 = some (lit, j)) :
    i ≤ j ∧ j < e ∧ lit = lits.getD j 0 := by
  induction n generalizing i with
  | zero => simp [avx2Main] at h
  | succ n ih =>
    simp only [avx2Main] at h
    split at h
    · split at h
      · rename_i h8 hany
        have hlt : (avx2BatchMask values lits i).findIdx id < 8 := by
          have := mask_findIdx_lt hany
          simpa [avx2BatchMask] using this
        have h2 : lits.getD (i + (avx2BatchMask values lits i).findIdx id) 0 = lit ∧
            i + (avx2BatchMask values lits i).findIdx id = j := by simpa using h
        obtain ⟨rfl, rfl⟩ := h2
        exact ⟨by omega, by omega, rfl⟩
      · obtain ⟨h1, h2, h3⟩ := ih h
        exact ⟨by omega, h2, h3⟩
    · simp at h

theorem avx2Main_snd_range (values : Nat → Int) (lits : List Nat)
    (e i n : Nat) : i ≤ (avx2Main values lits e i n).2 := by
  induction n generalizing i with
  | zero => simp [avx2Main]
  | succ n ih =>
    simp only [avx2Main]
    split
    · split
      · simp
      · have := ih (i + 8); omega
    · simp

theorem avx2_find_non_false_range {values : Nat → Int} {lits : List Nat}
    {a b lit j : Nat}
    (h : avx2_find_non_false values lits a b = some (lit, j)) :
    a ≤ j ∧ j < b ∧ lit = lits.getD j 0 := by
  unfold avx2_find_non_false at h
  split at h
  · obtain ⟨h1, h2, h3⟩ := scalarScan_range h
    refine ⟨h1, ?_, h3⟩
    by_cases hab : a ≤ b
    · omega
    · rw [Nat.sub_eq_zero_of_le (by omega)] at h2; omega
  · split at h
    · rename_i r i1 heq
      obtain ⟨h1, h2, h3⟩ :=
        avx2Main_fst_range (show (avx2Main values lits b a b).1 =
          some (lit, j) from by rw [heq]; simpa using h)
      exact ⟨h1, h2, h3⟩
    · rename_i i1 heq
      have hi1 : a ≤ i1 := by
        have := avx2Main_snd_range values lits b a b
        rw [heq] at this; exact this
      obtain ⟨h1, h2, h3⟩ := scalarScan_range h
      refine ⟨by omega, ?_, h3⟩
      by_cases hib : i1 ≤ b
      · omega
      · rw [Nat.sub_eq_zero_of_le (by omega)] at h2; omega

theorem avx2Unrolled_fst_range {values : Nat → Int} {lits : List Nat}
    {e i n lit j : Nat}
    (h : (avx2Unrolled values lits e i n).1 = some (lit, j)) :
    i ≤ j ∧ j < e ∧ lit = lits.getD j 0 := by
  induction n generalizing i with
  | zero => simp [avx2Unrolled] at h
  | succ n ih =>
    simp only [avx2Unrolled] at h
    split at h
    · split at h
      · rename_i h32 r heq
        obtain ⟨h1, h2, h3⟩ := scalarScan_range heq
        obtain ⟨rfl, rfl⟩ : r = (lit, j) := by simpa using h
        exact ⟨h1, by omega, h3⟩
      · obtain ⟨h1, h2, h3⟩ := ih h
        exact ⟨by omega, h2, h3⟩
    · simp at h

theorem avx2Unrolled_snd_range (values : Nat → Int) (lits : List Nat)
    (e i n : Nat) : i ≤ (avx2Unrolled values lits e i n).2 := by
  induction n generalizing i with
  | zero => simp [avx2Unrolled]
  | succ n ih =>
    simp only [avx2Unrolled]
    split
    · split
      · simp
      · have := ih (i + 32); omega
    · simp

theorem avx2_unrolled_range {values : Nat → Int} {lits : List Nat}
    {a b lit j : Nat}
    (h : avx2_find_non_false_unrolled values lits a b = some (lit, j)) :
    a ≤ j ∧ j < b ∧ lit = lits.getD j 0 := by
  unfold avx2_find_non_false_unrolled at h
  split at h
  · rename_i r i1 heq
    obtain ⟨h1, h2, h3⟩ :=
      avx2Unrolled_fst_range (show (avx2Unrolled values lits b a b).1 =
        some (lit, j) from by rw [heq]; simpa using h)
    exact ⟨h1, h2, h3⟩
  · rename_i i1 heq
    have hi1 : a ≤ i1 := by
      have := avx2Unrolled_snd_range values lits b a b
      rw [heq] at this; exact this
    obtain ⟨h1, h2, h3⟩ := avx2_find_non_false_range h
    exact ⟨by omega, h2, h3⟩

theorem kissat_simd_find_non_false_range {cfg : SimdCfg} {values : Nat → Int}
    {lits : List Nat} {a b lit j : Nat}
    (h : kissat_simd_find_non_false cfg values lits a b = some (lit, j)) :
    a ≤ j ∧ j < b ∧ lit = lits.getD j 0 := by
  unfold kissat_simd_find_non_false at h
  split at h
  · exact scalar_find_non_false_range h
  · split at h
    · exact avx512_find_non_false_range h
    · split at h
      · split at h
        · exact avx2_unrolled_range h
        · exact avx2_find_non_false_range h
      · exact scalar_find_non_false_range h

/-- C1: `kissat_simd_find_non_false` does NOT agree with
`scalar_find_non_false` on the AVX-512 dispatch path.  On the concrete input
`c1Values`/`c1Lits` (sixteen literals, only `lits[15] = 30` non-false, the
array 64-byte aligned so the pre-loop is empty) the scalar scan returns index
15 with replacement literal 30, while the AVX-512 path returns index 1 with
replacement literal 2 — a literal whose value is `-1` (false).  The cause is
in `avx512_find_non_false` (`simdscan.c:140-151`): the bytewise
`_mm512_cmpge_epi8_mask` mask is truncated to 16 bits and its byte position
is used as a lane index, so bit 1 — which tests `values[lits[0] + 1]`, the
value of the unrelated literal 1 — selects `lits[1]`. -/
theorem kissat_simd_find_non_false_avx512_mismatch :
    kissat_simd_find_non_false ⟨true, true, 0⟩ c1Values c1Lits 0 16 = some (2, 1) ∧
      scalar_find_non_false c1Values c1Lits 0 16 = some (30, 15) ∧
      c1Values 2 < 0 := by
  refine ⟨by decide, by decide, by decide⟩

/-! ## Restart controller (`src/restart.c`)

The glue moving averages are `double`s in the source; they are modelled as
rationals, which preserves the comparisons the control flow performs. -/

/-- The solver fields read by `kissat_restarting` and `kissat_restart`
(`restart.c`). -/
structure RestartState where
  /-- `GET_OPTION (restart)`. -/
  restartOption : Bool
  /-- `GET_OPTION (restartmargin)` (an integer percentage). -/
  restartmargin : Nat
  /-- `solver->level`. -/
  level : Nat
  /-- `CONFLICTS`. -/
  conflicts : Nat
  /-- `solver->limits.restart.conflicts`. -/
  restartLimit : Nat
  /-- `solver->stable`. -/
  stable : Bool
  /-- `kissat_reluctant_triggered (&solver->reluctant)`. -/
  reluctantTriggered : Bool
  /-- `AVERAGE (fast_glue)`. -/
  fastGlue : ℚ
  /-- `AVERAGE (slow_glue)`. -/
  slowGlue : ℚ

/-- `kissat_restarting` (`restart.c:14-37`). -/
def kissat_restarting (s : RestartState) : Bool :=
  if !s.restartOption then false
  else if s.level = 0 then false
  else if s.conflicts < s.restartLimit then false
  else if s.stable then s.reluctantTriggered
  else decide ((100 + (s.restartmargin : ℚ)) / 100 * s.slowGlue ≤ s.fastGlue)

/-- C5: in focused mode (`stable = false`), `kissat_restarting` returns true
iff the restart option is enabled, the decision level is positive, the
conflict count has reached `limits.restart.conflicts`, and
`((100 + restartmargin)/100) * slow_glue ≤ fast_glue`. -/
theorem kissat_restarting_focused_iff (s : RestartState) (h : s.stable = false) :
    kissat_restarting s = true ↔
      s.restartOption = true ∧ 0 < s.level ∧ s.restartLimit ≤ s.conflicts ∧
        (100 + (s.restartmargin : ℚ)) / 100 * s.slowGlue ≤ s.fastGlue := by
  unfold kissat_restarting
  rw [h]
  by_cases hopt : s.restartOption = true
  · by_cases hl : s.level = 0
    · simp [hopt, hl]
    · by_cases hc : s.conflicts < s.restartLimit
      · rw [if_neg (by simp [hopt]), if_neg hl, if_pos hc]
        constructor
        · intro hx; exact absurd hx (by simp)
        · rintro ⟨-, -, hle, -⟩; omega
      · rw [if_neg (by simp [hopt]), if_neg hl, if_neg hc, if_neg (by simp)]
        simp [hopt, Nat.pos_of_ne_zero hl, Nat.le_of_not_lt hc]
  · rw [if_pos (by simp [hopt])]
    simp [hopt]

/-- Witness for `kissat_restarting_focused_iff` at a concrete focused-mode
state (margin 20%, slow glue 2, fast glue 5/2). -/
theorem kissat_restarting_focused_iff_witness :
    (kissat_restarting ⟨true, 20, 1, 10, 5, false, false, 5 / 2, 2⟩ = true ↔
      (true = true ∧ 0 < 1 ∧ 5 ≤ 10 ∧
        (100 + (20 : ℚ)) / 100 * 2 ≤ 5 / 2)) :=
  kissat_restarting_focused_iff ⟨true, 20, 1, 10, 5, false, false, 5 / 2, 2⟩ rfl

/-! ## Trail reuse on restart (`src/restart.c:148-226`)

`frames` is the list of decision-variable indices of levels `1 .. level`
(`IDX (FRAME (k).decision)` for `k = 1, …, level`), `stamp` is
`links[·].stamp`, and `nextIdx` is the variable returned by
`kissat_next_decision_variable`.  `scores` models the stable-mode heap
scores. -/

/-- Loop of `reuse_focused_trail` (`restart.c:164-179`): starting from
`res = 0`, advance while the decision of level `res + 1` has
`stamp > limit`, stopping at the first level whose decision stamp is
`≤ limit`. -/
def reuseFocusedLoop (stamp : Nat → Nat) (limit : Nat) : List Nat → Nat
  | [] => 0
  | d :: ds => if stamp d ≤ limit then 0 else 1 + reuseFocusedLoop stamp limit ds

/-- `reuse_focused_trail` (`restart.c:164-179`). -/
def reuse_focused_trail (stamp : Nat → Nat) (frames : List Nat) (nextIdx : Nat) : Nat :=
  reuseFocusedLoop stamp (stamp nextIdx) frames

/-- Loop of `reuse_stable_trail` (`restart.c:148-162`), identical in shape
with heap scores in place of queue stamps. -/
def reuseStableLoop (score : Nat → ℚ) (limit : ℚ) : List Nat → Nat
  | [] => 0
  | d :: ds => if score d ≤ limit then 0 else 1 + reuseStableLoop score limit ds

/-- `reuse_stable_trail` (`restart.c:148-162`). -/
def reuse_stable_trail (score : Nat → ℚ) (frames : List Nat) (nextIdx : Nat) : Nat :=
  reuseStableLoop score (score nextIdx) frames

/-- `reuse_trail` (`restart.c:181-205`). -/
def reuse_trail (reusetrail : Bool) (stable : Bool) (stamp : Nat → Nat)
    (score : Nat → ℚ) (frames : List Nat) (nextIdx : Nat) : Nat :=
  if !reusetrail then 0
  else if stable then reuse_stable_trail score frames nextIdx
  else reuse_focused_trail stamp frames nextIdx

/-- The level `kissat_restart` (`restart.c:207-226`) passes to
`kissat_backtrack_in_consistent_state`. -/
def kissat_restart_target (reusetrail : Bool) (stable : Bool) (stamp : Nat → Nat)
    (score : Nat → ℚ) (frames : List Nat) (nextIdx : Nat) : Nat :=
  reuse_trail reusetrail stable stamp score frames nextIdx

/-- The level claimed by the specification: the deepest decision level whose
decision variable has `stamp ≥` the stamp of the next decision variable
(`0` when no such level exists).  Level `k` (for `k = 1, …, length`) has
decision `frames[k-1]`. -/
def specDeepestReuseLevel (stamp : Nat → Nat) (frames : List Nat) (nextIdx : Nat) : Nat :=
  List.foldl (fun acc k =>
      if stamp nextIdx ≤ stamp (frames.getD (k - 1) 0) then k else acc)
    0 (List.range' 1 frames.length)

/-- C6 counterexample: with decisions at levels 1 and 2 stamped 5 and 10 and
the next decision variable stamped 7, the code backtracks to level 0 (the
loop stops at level 1, whose stamp 5 is below 7), while the claimed "deepest
level whose decision stamp is ≥ the next decision's stamp" is level 2. -/
theorem kissat_restart_target_not_deepest :
    kissat_restart_target true false
        (fun v => if v = 0 then 5 else if v = 1 then 10 else 7) (fun _ => 0)
        [0, 1] 2 = 0 ∧
      specDeepestReuseLevel
        (fun v => if v = 0 then 5 else if v = 1 then 10 else 7) [0, 1] 2 = 2 := by
  refine ⟨by decide, by decide⟩

/-- C6 (amended): with `restartreusetrail` enabled and in focused mode,
`kissat_restart` backtracks to the length of the longest initial run of
decision levels whose decision variables have stamp strictly greater than
the stamp of the next decision variable; with the option disabled the target
level is 0. -/
theorem kissat_restart_target_focused (stamp : Nat → Nat) (score : Nat → ℚ)
    (frames : List Nat) (nextIdx : Nat) :
    kissat_restart_target true false stamp score frames nextIdx =
        (frames.takeWhile (fun d => stamp nextIdx < stamp d)).length ∧
      kissat_restart_target false false stamp score frames nextIdx = 0 := by
  constructor
  · show reuseFocusedLoop stamp (stamp nextIdx) frames = _
    induction frames with
    | nil => rfl
    | cons d ds ih =>
      simp only [reuseFocusedLoop]
      by_cases hd : stamp d ≤ stamp nextIdx
      · have hnd : ¬stamp nextIdx < stamp d := by omega
        rw [if_pos hd, List.takeWhile_cons, if_neg (by simp [hnd])]
        rfl
      · have hnd : stamp nextIdx < stamp d := by omega
        rw [if_neg hd, List.takeWhile_cons, if_pos (by simp [hnd]), ih]
        simp [Nat.add_comm]
  · rfl

/-! ## Conflict bookkeeping after propagation (`src/proplit.h:366-381`) -/

/-- The solver fields read and written by `kissat_update_conflicts_and_trail`:
the conflict counter, decision level, `inconsistent` flag and the
not-yet-flushed trail marker. -/
structure ConflictState where
  conflicts : Nat
  level : Nat
  inconsistent : Bool
  unflushed : Bool

/-- Modelled from the spec: `kissat_flush_trail` (in `trail.c`, not part of
the sources here) transfers the fully propagated root-level trail out of the
trail stack; it does not touch the `inconsistent` flag. -/
def kissat_flush_trail (s : ConflictState) : ConflictState :=
  { s with unflushed := false }

/-- `kissat_update_conflicts_and_trail` (`proplit.h:366-381`); `conflict` is
`some ()` for a non-null conflict clause pointer. -/
def kissat_update_conflicts_and_trail (s : ConflictState) (conflict : Option Unit)
    (flush : Bool) : ConflictState :=
  if conflict.isSome then
    if s.level = 0 then { s with conflicts := s.conflicts + 1, inconsistent := true }
    else { s with conflicts := s.conflicts + 1 }
  else if flush && s.level == 0 && s.unflushed then kissat_flush_trail s
  else s

/-- C8: `kissat_update_conflicts_and_trail` sets `inconsistent` to true
exactly when it is given a non-null conflict at decision level 0; with a
null conflict, or a conflict at a positive level, the flag keeps its previous
value. -/
theorem kissat_update_conflicts_and_trail_inconsistent (s : ConflictState)
    (conflict : Option Unit) (flush : Bool) :
    (kissat_update_conflicts_and_trail s conflict flush).inconsistent =
      (s.inconsistent || (conflict.isSome && s.level == 0)) := by
  unfold kissat_update_conflicts_and_trail kissat_flush_trail
  rcases conflict with _ | u
  · rw [show (none : Option Unit).isSome = false from rfl, if_neg (by simp)]
    simp only [Bool.false_and, Bool.or_false]
    split <;> rfl
  · rw [show (some u).isSome = true from rfl, if_pos rfl]
    by_cases hl : s.level = 0
    · simp [hl]
    · simp [hl]

/-! ## Reducer (`src/reduce.c`)

The arena suffix starting at `first_reducible` is modelled as a
`List RClause`; a clause reference is its index in that list.
`MAX_USED` (the saturation bound of the `used` counter, defined outside
these sources) and the tier cutoffs are parameters. -/

/-- The clause-header fields read by the reducer. -/
structure RClause where
  size : Nat
  glue : Nat
  used : Nat
  redundant : Bool
  garbage : Bool
  reason : Bool
deriving DecidableEq

instance : Inhabited RClause := ⟨⟨0, 0, 0, false, false, false⟩⟩

/-- The `used`-counter update of the scan in `collect_reducibles`
(`reduce.c:67-75`): every redundant non-garbage clause has its `used`
counter decremented, saturating at 0 (`if (used) c->used = used - 1`). -/
def collectClauses : List RClause → List RClause
  | [] => []
  | c :: cs =>
    (if c.redundant && !c.garbage && c.used != 0 then { c with used := c.used - 1 }
     else c) :: collectClauses cs

/-- A reduction candidate (`reduce.c:67-76`): `redundant && !garbage &&
!reason`. -/
def isReduceCandidate (c : RClause) : Bool :=
  c.redundant && !c.garbage && !c.reason

/-- The protected-tier test of `collect_reducibles` (`reduce.c:77-81`),
applied to the `used` value read before the decrement:
`glue ≤ tier1 && used`, or `glue ≤ tier2 && used ≥ MAX_USED - 1`. -/
def reduceProtected (tier1 tier2 maxUsed : Nat) (c : RClause) : Bool :=
  (decide (c.glue ≤ tier1) && decide (0 < c.used)) ||
    (decide (c.glue ≤ tier2) && decide (maxUsed - 1 ≤ c.used))

/-- The indices pushed onto the `reducibles` stack by `collect_reducibles`
(`reduce.c:67-89`), in arena order. -/
def collectIndices (tier1 tier2 maxUsed : Nat) : List RClause → List Nat
  | [] => []
  | c :: cs =>
    if isReduceCandidate c && !reduceProtected tier1 tier2 maxUsed c then
      0 :: (collectIndices tier1 tier2 maxUsed cs).map (· + 1)
    else (collectIndices tier1 tier2 maxUsed cs).map (· + 1)

/-- `rank = negative_size | (negative_glue << 32)` (`reduce.c:84-86`): the
32-bit complements of `size` and `glue` packed into a 64-bit word
(`negative_size < 2^32`, so the bitwise or is a sum). -/
def reduceRank (c : RClause) : Nat :=
  (2 ^ 32 - 1 - c.size % 2 ^ 32) + 2 ^ 32 * (2 ^ 32 - 1 - c.glue % 2 ^ 32)

/-- `collect_reducibles` (`reduce.c:39-96`): the updated clauses and the
stack of `(rank, ref)` pairs. -/
def collect_reducibles (tier1 tier2 maxUsed : Nat) (cs : List RClause) :
    List RClause × List (Nat × Nat) :=
  (collectClauses cs,
    (collectIndices tier1 tier2 maxUsed cs).map fun i =>
      (reduceRank (cs.getD i default), i))

/-- Ordered insertion used to model the ascending radix sort of
`sort_reducibles` (`reduce.c:100-102`). -/
def insertByRank (x : Nat × Nat) : List (Nat × Nat) → List (Nat × Nat)
  | [] => [x]
  | y :: ys => if x.1 ≤ y.1 then x :: y :: ys else y :: insertByRank x ys

/-- `sort_reducibles` (`reduce.c:100-102`): sort the stack by rank,
ascending, so the least useful clauses come first. -/
def sort_reducibles : List (Nat × Nat) → List (Nat × Nat)
  | [] => []
  | x :: xs => insertByRank x (sort_reducibles xs)

/-- `kissat_mark_clause_as_garbage` on the clause at index `i`, restricted to
the header flag it sets. -/
def markGarbageAt (cs : List RClause) (i : Nat) : List RClause :=
  match cs.get? i with
  | some c => cs.set i { c with garbage := true }
  | none => cs

/-- The marking loop of `mark_less_useful_clauses_as_garbage`
(`reduce.c:127-148`): mark the first `target` entries of the sorted stack as
garbage.  `target` abstracts `SIZE_STACK (*reds) * fraction`, whose fraction
is computed with floating-point `log10` (`reduce.c:107-117`). -/
def mark_less_useful (reds : List (Nat × Nat)) (target : Nat)
    (cs : List RClause) : List RClause :=
  (reds.take target).foldl (fun acc p => markGarbageAt acc p.2) cs

/-- The clause-flag phase of `kissat_reduce` (`reduce.c:239-305`): collect
the reducibles from the arena suffix, and unless none were found, sort them
and mark the least useful `target` of them as garbage. -/
def kissat_reduce_mark (tier1 tier2 maxUsed target : Nat)
    (cs : List RClause) : List RClause :=
  if (collect_reducibles tier1 tier2 maxUsed cs).2.isEmpty then
    (collect_reducibles tier1 tier2 maxUsed cs).1
  else
    mark_less_useful (sort_reducibles (collect_reducibles tier1 tier2 maxUsed cs).2)
      target (collect_reducibles tier1 tier2 maxUsed cs).1

theorem collectClauses_get? (cs : List RClause) (i : Nat) :
    (collectClauses cs).get? i = (cs.get? i).map fun c =>
      if c.redundant && !c.garbage && c.used != 0 then { c with used := c.used - 1 }
      else c := by
  induction cs generalizing i with
  | nil => simp [collectClauses]
  | cons c cs ih =>
    cases i with
    | zero => simp [collectClauses]
    | succ i => simpa [collectClauses] using ih i

theorem collectIndices_mem (tier1 tier2 maxUsed : Nat) (cs : List RClause)
    (i : Nat) (c : RClause) (hc : cs.get? i = some c) :
    (i ∈ collectIndices tier1 tier2 maxUsed cs ↔
      (isReduceCandidate c && !reduceProtected tier1 tier2 maxUsed c) = true) := by
  induction cs generalizing i with
  | nil => simp at hc
  | cons d ds ih =>
    cases i with
    | zero =>
      rw [List.get?_cons_zero, Option.some.injEq] at hc
      subst hc
      simp only [collectIndices]
      split
      · rename_i hcond
        simp [hcond]
      · rename_i hcond
        simp only [Bool.not_eq_true] at hcond
        rw [hcond]
        simp only [List.mem_map, Bool.false_eq_true, iff_false, not_exists]
        rintro j ⟨-, hj⟩
        omega
    | succ i =>
      rw [List.get?_cons_succ] at hc
      simp only [collectIndices]
      split
      · simp only [List.mem_cons, List.mem_map]
        constructor
        · rintro (h1 | ⟨j, hj, hji⟩)
          · omega
          · have hji2 : j = i := by omega
            subst hji2
            exact (ih _ hc).mp hj
        · intro hcand
          exact Or.inr ⟨i, (ih i hc).mpr hcand, rfl⟩
      · simp only [List.mem_map]
        constructor
        · rintro ⟨j, hj, hji⟩
          have hji2 : j = i := by omega
          subst hji2
          exact (ih _ hc).mp hj
        · intro hcand
          exact ⟨i, (ih i hc).mpr hcand, rfl⟩

/-- C3: during the reduction scan, an index is pushed onto the reducibles
stack iff its clause is redundant, not garbage and not a reason and is not
protected (`glue ≤ tier1` with `used > 0`, or `glue ≤ tier2` with
`used ≥ MAX_USED - 1`, both read before the decrement); and every redundant
non-garbage clause — in particular every candidate — has its `used` counter
decremented, saturating at 0. -/
theorem collect_reducibles_spec (tier1 tier2 maxUsed : Nat) (cs : List RClause)
    (i : Nat) (c : RClause) (hc : cs.get? i = some c) :
    (i ∈ ((collect_reducibles tier1 tier2 maxUsed cs).2.map Prod.snd) ↔
      (c.redundant = true ∧ c.garbage = false ∧ c.reason = false ∧
        ¬(c.glue ≤ tier1 ∧ 0 < c.used) ∧ ¬(c.glue ≤ tier2 ∧ maxUsed - 1 ≤ c.used))) ∧
      (c.redundant = true → c.garbage = false →
        (collect_reducibles tier1 tier2 maxUsed cs).1.get? i =
          some { c with used := c.used - 1 }) := by
  constructor
  · have hmap : (collect_reducibles tier1 tier2 maxUsed cs).2.map Prod.snd =
        collectIndices tier1 tier2 maxUsed cs := by
      show List.map Prod.snd (List.map _ _) = _
      rw [List.map_map]
      exact List.map_id _
    rw [hmap, collectIndices_mem tier1 tier2 maxUsed cs i c hc]
    rcases c with ⟨size, glue, used, red, garb, reas⟩
    rcases red <;> rcases garb <;> rcases reas <;>
        simp [isReduceCandidate, reduceProtected] <;> omega
  · intro h1 h2
    show (collectClauses cs).get? i = _
    rw [collectClauses_get?, hc]
    rcases c with ⟨size, glue, used, red, garb, reas⟩
    simp only at h1 h2
    subst h1
    subst h2
    by_cases hu : used = 0
    · subst hu
      simp [Option.map]
    · simp [Option.map, hu]

/-- Witness clause list for the reducer theorems: a single redundant,
unprotected clause of size 5, glue 4, `used = 0`. -/
def c3cs : List RClause := [⟨5, 4, 0, true, false, false⟩]

/-- Witness for `collect_reducibles_spec` with `tier1 = 2`, `tier2 = 3`,
`MAX_USED = 4` on `c3cs`. -/
theorem collect_reducibles_spec_witness :
    c3cs.get? 0 = some ⟨5, 4, 0, true, false, false⟩ ∧
      ((0 ∈ ((collect_reducibles 2 3 4 c3cs).2.map Prod.snd) ↔
        (true = true ∧ false = false ∧ false = false ∧
          ¬((4 : Nat) ≤ 2 ∧ 0 < 0) ∧ ¬((4 : Nat) ≤ 3 ∧ 4 - 1 ≤ 0))) ∧
      (true = true → false = false →
        (collect_reducibles 2 3 4 c3cs).1.get? 0 =
          some { size := 5, glue := 4, used := 0 - 1, redundant := true,
                 garbage := false, reason := false })) :=
  ⟨rfl, collect_reducibles_spec 2 3 4 c3cs 0 ⟨5, 4, 0, true, false, false⟩ rfl⟩

theorem insertByRank_perm (x : Nat × Nat) (l : List (Nat × Nat)) :
    (insertByRank x l).Perm (x :: l) := by
  induction l with
  | nil => exact List.Perm.refl _
  | cons y ys ih =>
    simp only [insertByRank]
    split
    · exact List.Perm.refl _
    · exact ((ih.cons y).trans (List.Perm.swap x y ys))

theorem sort_reducibles_perm (l : List (Nat × Nat)) :
    (sort_reducibles l).Perm l := by
  induction l with
  | nil => exact List.Perm.refl _
  | cons x xs ih =>
    exact (insertByRank_perm x (sort_reducibles xs)).trans (ih.cons x)

theorem markGarbageAt_get? (cs : List RClause) (j i : Nat) :
    (markGarbageAt cs j).get? i =
      if i = j then (cs.get? i).map (fun c => { c with garbage := true })
      else cs.get? i := by
  unfold markGarbageAt
  split
  · rename_i c hc
    by_cases hij : i = j
    · subst hij
      rw [if_pos rfl, List.get?_set_eq, hc]
      rfl
    · rw [if_neg hij, List.get?_set_ne _ _ (fun h => hij h.symm)]
  · rename_i hc
    by_cases hij : i = j
    · subst hij
      rw [if_pos rfl, hc]
      rfl
    · rw [if_neg hij]

theorem mark_fold_get? (ps : List (Nat × Nat)) (cs : List RClause) (i : Nat)
    (c : RClause) (hc : cs.get? i = some c) :
    ∃ c', (ps.foldl (fun acc p => markGarbageAt acc p.2) cs).get? i = some c' ∧
      (c' = c ∨ (c' = { c with garbage := true } ∧ i ∈ ps.map Prod.snd)) := by
  induction ps generalizing cs c with
  | nil => exact ⟨c, hc, Or.inl rfl⟩
  | cons p ps ih =>
    simp only [List.foldl_cons]
    by_cases hip : i = p.2
    · have hstep : (markGarbageAt cs p.2).get? i = some { c with garbage := true } := by
        rw [markGarbageAt_get?, if_pos hip, hc]; rfl
      obtain ⟨c', hget, hrel⟩ := ih (markGarbageAt cs p.2) _ hstep
      refine ⟨c', hget, Or.inr ?_⟩
      have hmm : i ∈ (p :: ps).map Prod.snd := by
        rw [List.map_cons, hip]
        exact List.mem_cons_self _ _
      rcases hrel with rfl | ⟨rfl, -⟩
      · exact ⟨rfl, hmm⟩
      · exact ⟨rfl, hmm⟩
    · have hstep : (markGarbageAt cs p.2).get? i = some c := by
        rw [markGarbageAt_get?, if_neg hip, hc]
      obtain ⟨c', hget, hrel⟩ := ih (markGarbageAt cs p.2) _ hstep
      refine ⟨c', hget, ?_⟩
      rcases hrel with rfl | ⟨rfl, hmem⟩
      · exact Or.inl rfl
      · exact Or.inr ⟨rfl, by rw [List.map_cons]; exact List.mem_cons_of_mem _ hmem⟩

/-- C4: every clause that `kissat_reduce`'s marking phase turns into garbage
was, before the reduction, redundant, not yet garbage and not a reason
clause; equivalently, any clause that is garbage afterwards either already
was garbage or was a redundant non-reason clause. -/
theorem kissat_reduce_mark_safe (tier1 tier2 maxUsed target : Nat)
    (cs : List RClause) (i : Nat) (c c' : RClause)
    (hc : cs.get? i = some c)
    (hc' : (kissat_reduce_mark tier1 tier2 maxUsed target cs).get? i = some c')
    (hg : c'.garbage = true) :
    c.garbage = true ∨
      (c.redundant = true ∧ c.reason = false ∧ c.garbage = false) := by
  have hcoll : (collect_reducibles tier1 tier2 maxUsed cs).1.get? i = some
      (if c.redundant && !c.garbage && c.used != 0 then { c with used := c.used - 1 }
       else c) := by
    show (collectClauses cs).get? i = _
    rw [collectClauses_get?, hc]
    rfl
  set c2 := (if c.redundant && !c.garbage && c.used != 0
      then { c with used := c.used - 1 } else c) with hc2
  have hflags : c2.garbage = c.garbage ∧ c2.redundant = c.redundant ∧
      c2.reason = c.reason ∧ c2.glue = c.glue := by
    rw [hc2]; split <;> exact ⟨rfl, rfl, rfl, rfl⟩
  unfold kissat_reduce_mark at hc'
  split at hc'
  · rw [hcoll, Option.some.injEq] at hc'
    subst hc'
    exact Or.inl (hflags.1 ▸ hg)
  · rw [mark_less_useful] at hc'
    obtain ⟨c3, hget3, hrel⟩ := mark_fold_get? _ _ i c2 hcoll
    rw [hget3, Option.some.injEq] at hc'
    subst hc'
    rcases hrel with rfl | ⟨-, hmem⟩
    · exact Or.inl (hflags.1 ▸ hg)
    · have h1 : i ∈ (sort_reducibles
          (collect_reducibles tier1 tier2 maxUsed cs).2).map Prod.snd :=
        List.map_subset Prod.snd (List.take_subset _ _) hmem
      have h2 : i ∈ (collect_reducibles tier1 tier2 maxUsed cs).2.map Prod.snd :=
        ((sort_reducibles_perm _).map Prod.snd).mem_iff.mp h1
      have hmap : (collect_reducibles tier1 tier2 maxUsed cs).2.map Prod.snd =
          collectIndices tier1 tier2 maxUsed cs := by
        show List.map Prod.snd (List.map _ _) = _
        rw [List.map_map]
        exact List.map_id _
      rw [hmap] at h2
      have h3 := (collectIndices_mem tier1 tier2 maxUsed cs i c hc).mp h2
      simp only [isReduceCandidate, Bool.and_eq_true, Bool.not_eq_true'] at h3
      rcases c with ⟨size, glue, used, red, garb, reas⟩
      rcases red <;> rcases garb <;> rcases reas <;> simp_all

/-- Witness for `kissat_reduce_mark_safe`: on `c3cs` with `target = 1` the
single candidate is marked garbage, and it was indeed redundant, non-reason
and non-garbage before. -/
theorem kissat_reduce_mark_safe_witness :
    c3cs.get? 0 = some (⟨5, 4, 0, true, false, false⟩ : RClause) ∧
      (kissat_reduce_mark 2 3 4 1 c3cs).get? 0 =
        some (⟨5, 4, 0, true, true, false⟩ : RClause) ∧
      (RClause.garbage ⟨5, 4, 0, true, true, false⟩ = true) ∧
      (RClause.garbage ⟨5, 4, 0, true, false, false⟩ = true ∨
        (RClause.redundant ⟨5, 4, 0, true, false, false⟩ = true ∧
          RClause.reason ⟨5, 4, 0, true, false, false⟩ = false ∧
          RClause.garbage ⟨5, 4, 0, true, false, false⟩ = false)) := by
  have h2 : (kissat_reduce_mark 2 3 4 1 c3cs).get? 0 =
      some (⟨5, 4, 0, true, true, false⟩ : RClause) := by decide
  exact ⟨rfl, h2, rfl, kissat_reduce_mark_safe 2 3 4 1 c3cs 0 _ _ rfl h2 rfl⟩

/-! ## Binary implication index (`src/binindex.c`)

The watch list of a literal is a `List PWatch`; a binary watch carries its
blocking literal (the binary partner), a large watch carries the blocking
literal and the arena reference that occupies the following watch slot. -/

/-- A watch slot pair: one-word binary watch or two-word large watch
(head with blocking literal, tail with clause reference). -/
inductive PWatch where
  | binary (blocking : Nat)
  | large (blocking : Nat) (ref : Nat)
deriving DecidableEq

/-- The walk both passes of the rebuild perform over one watch list
(`binindex.c:124-134` and `binindex.c:174-189`): take the blocking literal
of each binary watch, skip the tail word of each large watch. -/
def binBlockings : List PWatch → List Nat
  | [] => []
  | .binary b :: ws => b :: binBlockings ws
  | .large _ _ :: ws => binBlockings ws

/-- `count_binary_clauses` for one literal (`binindex.c:110-135`). -/
def count_binary_clauses (ws : List PWatch) : Nat :=
  (binBlockings ws).length

/-- `populate_bin_index` for one literal (`binindex.c:160-190`): entries are
appended in watch-list order, but only when the entry array was allocated,
i.e. when the counted capacity is non-zero. -/
def populate_bin_entries (ws : List PWatch) (capacity : Nat) : List Nat :=
  if capacity = 0 then [] else binBlockings ws

/-- `kissat_rebuild_bin_index` (`binindex.c:193-231`), per literal: count,
allocate with the counted capacity, populate. -/
def kissat_rebuild_bin_index (watches : List (List PWatch)) : List (List Nat) :=
  watches.map fun ws => populate_bin_entries ws (count_binary_clauses ws)

/-- C9: after `kissat_rebuild_bin_index`, for every literal `l` the entries
of `bin_index[l]` are exactly — as a multiset, duplicates included — the
blocking literals of the binary watches in `watches[l]`. -/
theorem kissat_rebuild_bin_index_spec (watches : List (List PWatch)) (l : Nat) :
    Multiset.ofList ((kissat_rebuild_bin_index watches).getD l []) =
      Multiset.ofList (binBlockings (watches.getD l [])) := by
  unfold kissat_rebuild_bin_index
  by_cases hl : l < watches.length
  · rw [List.getD_eq_getElem?_getD, List.getElem?_map,
      List.getElem?_eq_getElem hl]
    show Multiset.ofList ((some (populate_bin_entries _ _)).getD []) = _
    rw [List.getD_eq_getElem?_getD, List.getElem?_eq_getElem hl]
    show Multiset.ofList (populate_bin_entries watches[l] (count_binary_clauses watches[l])) = _
    unfold populate_bin_entries count_binary_clauses
    split
    · rename_i hlen
      rw [List.length_eq_zero] at hlen
      simp [hlen]
    · rfl
  · rw [List.getD_eq_getElem?_getD, List.getElem?_map]
    rw [List.getElem?_eq_none (by simpa using Nat.le_of_not_lt hl)]
    rw [List.getD_eq_getElem?_getD,
      List.getElem?_eq_none (by simpa using Nat.le_of_not_lt hl)]
    rfl

/-- The binary implication index itself: `none` models an unallocated
`solver->bin_index`, otherwise one entry list per literal. -/
def BinIndex := Option (List (List Nat))

/-- `kissat_init_bin_index` (`binindex.c:70-77`): `calloc` yields `LITS`
empty lists. -/
def kissat_init_bin_index (lits : Nat) : BinIndex :=
  some (List.replicate lits [])

/-- `kissat_bin_impl_add` (`binindex.c:233-263`): no-op when the index is
unallocated; no-op when `b` already occurs in `bin_index[a]`; otherwise
append `b` (the capacity-doubling reallocation preserves the entries). -/
def kissat_bin_impl_add (idx : BinIndex) (a b : Nat) : BinIndex :=
  match idx with
  | none => none
  | some lists =>
    if b ∈ lists.getD a [] then some lists
    else some (lists.set a (lists.getD a [] ++ [b]))

/-- `kissat_bin_impl_contains` (`binindex.c:286-298`). -/
def kissat_bin_impl_contains (idx : BinIndex) (a b : Nat) : Bool :=
  match idx with
  | none => false
  | some lists => decide (b ∈ lists.getD a [])

/-- Entry list of a literal (empty when unallocated). -/
def binEntries (idx : BinIndex) (a : Nat) : List Nat :=
  match idx with
  | none => []
  | some lists => lists.getD a []

theorem kissat_bin_impl_add_nodup (idx : BinIndex) (a b l : Nat)
    (h : (binEntries idx l).Nodup) :
    (binEntries (kissat_bin_impl_add idx a b) l).Nodup := by
  rcases idx with _ | lists
  · exact h
  · show (binEntries (if b ∈ lists.getD a [] then some lists
        else some (lists.set a (lists.getD a [] ++ [b]))) l).Nodup
    split
    · exact h
    · rename_i hmem
      show ((lists.set a (lists.getD a [] ++ [b])).getD l []).Nodup
      have hh : (lists.getD l []).Nodup := h
      by_cases hla : l = a
      · subst hla
        by_cases hl : l < lists.length
        · rw [List.getD_eq_getElem?_getD, List.getElem?_set_self hl]
          show ((lists.getD l []) ++ [b]).Nodup
          refine List.Nodup.append hh (List.nodup_singleton b) ?_
          intro x hx hxb
          rw [List.mem_singleton] at hxb
          exact hmem (hxb ▸ hx)
        · rw [List.set_eq_of_length_le (by omega)]
          exact hh
      · rw [List.getD_eq_getElem?_getD,
          List.getElem?_set_ne (fun hh2 => hla hh2.symm),
          ← List.getD_eq_getElem?_getD]
        exact hh

theorem bin_impl_add_fold_nodup (ops : List (Nat × Nat)) (idx : BinIndex)
    (h : ∀ l, (binEntries idx l).Nodup) (l : Nat) :
    (binEntries (ops.foldl (fun idx p => kissat_bin_impl_add idx p.1 p.2) idx)
      l).Nodup := by
  induction ops generalizing idx with
  | nil => exact h l
  | cons p ps ih =>
    exact ih _ fun l2 => kissat_bin_impl_add_nodup idx p.1 p.2 l2 (h l2)

theorem init_bin_index_nodup (lits l : Nat) :
    (binEntries (kissat_init_bin_index lits) l).Nodup := by
  show ((List.replicate lits ([] : List Nat)).getD l []).Nodup
  rw [List.getD_eq_getElem?_getD, List.getElem?_replicate]
  split <;> simp

/-- C10: `kissat_bin_impl_add` is idempotent and sound for membership:
(1) if `b` already occurs in `bin_index[a]` the call leaves the whole index
unchanged; (2) starting from a freshly initialized index, after any sequence
of adds every literal occurs at most once in each entry list; (3) after
`kissat_bin_impl_add a b` on an allocated index (with `a < LITS`),
`kissat_bin_impl_contains a b` returns true. -/
theorem kissat_bin_impl_add_spec :
    (∀ (idx : BinIndex) (a b : Nat), b ∈ binEntries idx a →
        kissat_bin_impl_add idx a b = idx) ∧
      (∀ (ops : List (Nat × Nat)) (lits l : Nat),
        (binEntries (ops.foldl (fun idx p => kissat_bin_impl_add idx p.1 p.2)
          (kissat_init_bin_index lits)) l).Nodup) ∧
      (∀ (lists : List (List Nat)) (a b : Nat), a < lists.length →
        kissat_bin_impl_contains (kissat_bin_impl_add (some lists) a b) a b = true) := by
  refine ⟨?_, ?_, ?_⟩
  · intro idx a b hmem
    rcases idx with _ | lists
    · rfl
    · show (if b ∈ lists.getD a [] then some lists
        else some (lists.set a (lists.getD a [] ++ [b]))) = some lists
      rw [if_pos (show b ∈ lists.getD a [] from hmem)]
  · intro ops lits l
    exact bin_impl_add_fold_nodup ops _ (fun l2 => init_bin_index_nodup lits l2) l
  · intro lists a b ha
    show kissat_bin_impl_contains (if b ∈ lists.getD a [] then some lists
        else some (lists.set a (lists.getD a [] ++ [b]))) a b = true
    by_cases hmem : b ∈ lists.getD a []
    · rw [if_pos hmem]
      show decide (b ∈ lists.getD a []) = true
      simpa using hmem
    · rw [if_neg hmem]
      show decide (b ∈ (lists.set a (lists.getD a [] ++ [b])).getD a []) = true
      rw [List.getD_eq_getElem?_getD, List.getElem?_set_self ha]
      show decide (b ∈ lists.getD a [] ++ [b]) = true
      simp

/-- Witness for `kissat_bin_impl_add_spec`: part (1) at an index already
containing the pair, part (3) at a fresh slot. -/
theorem kissat_bin_impl_add_spec_witness :
    (7 ∈ binEntries (some [[7]]) 0 ∧
        kissat_bin_impl_add (some [[7]]) 0 7 = some [[7]]) ∧
      (binEntries ([((0 : Nat), (5 : Nat)), (0, 5)].foldl
          (fun idx p => kissat_bin_impl_add idx p.1 p.2)
          (kissat_init_bin_index 2)) 0).Nodup ∧
      (0 < [[((3 : Nat))]].length ∧
        kissat_bin_impl_contains (kissat_bin_impl_add (some [[3]]) 0 5) 0 5 = true) :=
  ⟨⟨by decide, kissat_bin_impl_add_spec.1 (some [[7]]) 0 7 (by decide)⟩,
    kissat_bin_impl_add_spec.2.1 [(0, 5), (0, 5)] 2 0,
    by decide, kissat_bin_impl_add_spec.2.2 [[3]] 0 5 (by decide)⟩

/-! ## Stable-mode decision cache (`src/decide.c:169-285`)

State is per variable: `values idx` models `solver->values[LIT (idx)]`
(0 when unassigned), `active idx` models `ACTIVE (idx)`. -/

/-- `INVALID_IDX` (`UINT_MAX`). -/
def INVALID_IDX : Nat := 4294967295

/-- The solver fields used by the decision cache. -/
structure DecideState where
  values : Nat → Int
  active : Nat → Bool
  decision_cache : List Nat
  decision_cache_valid : Bool
  cache_hits : Nat
  cache_misses : Nat

/-- `cache_entry_valid` (`decide.c:174-180`): the entry is a real, active,
unassigned variable. -/
def cache_entry_valid (s : DecideState) (idx : Nat) : Bool :=
  if idx = INVALID_IDX then false
  else if !s.active idx then false
  else decide (s.values idx = 0)

/-- The search loop of `get_from_decision_cache` (`decide.c:188-200`):
first valid entry and its position. -/
def cacheLookup (s : DecideState) : List Nat → Nat → Option (Nat × Nat)
  | [], _ => none
  | e :: es, i =>
    if cache_entry_valid s e then some (e, i) else cacheLookup s es (i + 1)

/-- The LRU move-to-front of `get_from_decision_cache` (`decide.c:192-196`):
shift entries `0..i-1` one slot down and put entry `i` in front. -/
def lruPromote (cache : List Nat) (i : Nat) : List Nat :=
  match cache.get? i with
  | some x => x :: cache.eraseIdx i
  | none => cache

/-- `get_from_decision_cache` (`decide.c:183-206`): `INVALID_IDX` when the
cache is marked invalid; otherwise the first valid entry (promoted to the
front, hit counted), marking the cache invalid on a fruitless search. -/
def get_from_decision_cache (s : DecideState) : Nat × DecideState :=
  if !s.decision_cache_valid then (INVALID_IDX, s)
  else
    match cacheLookup s s.decision_cache 0 with
    | some (idx, i) =>
      (idx,
        { s with
          decision_cache :=
            if 0 < i then lruPromote s.decision_cache i else s.decision_cache,
          cache_hits := s.cache_hits + 1 })
    | none =>
      (INVALID_IDX,
        { s with
          decision_cache_valid := false,
          cache_misses := s.cache_misses + 1 })

/-- `invalidate_decision_cache` (`decide.c:240-243`).  It is declared
`static` and has no caller anywhere in `decide.c` (nor can any other
translation unit call it), so no backtrack ever runs it. -/
def invalidate_decision_cache (s : DecideState) : DecideState :=
  { s with decision_cache_valid := false, decision_cache := [] }

/-- Modelled from the spec: `backtrack_to` (in `backtrack.c`, not part of
these sources) pops trail segments and unassigns their variables.  Nothing
in `decide.c` is invoked from it — `invalidate_decision_cache` is
file-static with no caller — so the cache fields are untouched; only the
assignment values change. -/
def backtrack_unassign (s : DecideState) (unassigned : List Nat) : DecideState :=
  { s with values := fun v => if v ∈ unassigned then 0 else s.values v }

/-- Concrete pre-backtrack state for C2: variable 5 is assigned but still
sits in the (valid) decision cache. -/
def c2State : DecideState :=
  { values := fun v => if v = 5 then 1 else 0,
    active := fun _ => true,
    decision_cache := [5],
    decision_cache_valid := true,
    cache_hits := 0,
    cache_misses := 0 }

/-- C2 counterexample: backtracking past the assignment of cached variable 5
does not invalidate the decision cache — `decision_cache_valid` stays true,
and the next stable-mode decision consults the cache as still-valid and gets
a hit on it, contrary to the claim that the cache is invalidated first. -/
theorem decision_cache_not_invalidated_on_backtrack :
    (backtrack_unassign c2State [5]).decision_cache_valid = true ∧
      (get_from_decision_cache (backtrack_unassign c2State [5])).1 = 5 ∧
      (get_from_decision_cache (backtrack_unassign c2State [5])).2.decision_cache_valid
        = true ∧
      (get_from_decision_cache (backtrack_unassign c2State [5])).2.cache_hits = 1 := by
  refine ⟨rfl, by decide, by decide, by decide⟩

theorem cacheLookup_valid (s : DecideState) (es : List Nat) (i0 idx i : Nat)
    (h : cacheLookup s es i0 = some (idx, i)) :
    cache_entry_valid s idx = true := by
  induction es generalizing i0 with
  | nil => simp [cacheLookup] at h
  | cons e es ih =>
    simp only [cacheLookup] at h
    split at h
    · rename_i hv
      rw [Option.some.injEq, Prod.mk.injEq] at h
      exact h.1 ▸ hv
    · exact ih (i0 + 1) h

theorem get_from_decision_cache_some (s : DecideState) (idx : Nat)
    (hget : (get_from_decision_cache s).1 = idx) (hne : idx ≠ INVALID_IDX) :
    cache_entry_valid s idx = true := by
  unfold get_from_decision_cache at hget
  split at hget
  · exact absurd (by simpa using hget.symm) hne
  · rcases heq : cacheLookup s s.decision_cache 0 with _ | ⟨idx2, i⟩
    · rw [heq] at hget
      exact absurd (by simpa using hget.symm) hne
    · rw [heq] at hget
      have h2 : idx2 = idx := by simpa using hget
      exact h2 ▸ cacheLookup_valid s s.decision_cache 0 idx2 i heq

theorem get_from_decision_cache_none (s : DecideState)
    (h : (get_from_decision_cache s).1 = INVALID_IDX) :
    (get_from_decision_cache s).2.decision_cache_valid = false := by
  unfold get_from_decision_cache at h ⊢
  split at h
  · rename_i hval
    rw [if_pos hval]
    show s.decision_cache_valid = false
    simpa using hval
  · rename_i hval
    rw [if_neg hval]
    rcases heq : cacheLookup s s.decision_cache 0 with _ | ⟨idx2, i⟩
    · rfl
    · rw [heq] at h
      have hv := cacheLookup_valid s s.decision_cache 0 idx2 i heq
      have h2 : idx2 = INVALID_IDX := by simpa using h
      rw [h2, cache_entry_valid, if_pos rfl] at hv
      simp at hv

/-- C2 (amended): backtracking leaves the decision cache and its valid flag
unchanged; the cache is still consulted afterwards, and correctness is kept
per lookup instead: `get_from_decision_cache` only ever returns an entry
that is currently active and unassigned, and when it finds no valid entry it
returns `INVALID_IDX` with `decision_cache_valid` cleared. -/
theorem backtrack_cache_lookup_spec (s : DecideState) (unassigned : List Nat) :
    (backtrack_unassign s unassigned).decision_cache_valid = s.decision_cache_valid ∧
      (backtrack_unassign s unassigned).decision_cache = s.decision_cache ∧
      (∀ idx, (get_from_decision_cache (backtrack_unassign s unassigned)).1 = idx →
        idx ≠ INVALID_IDX →
        cache_entry_valid (backtrack_unassign s unassigned) idx = true) ∧
      ((get_from_decision_cache (backtrack_unassign s unassigned)).1 = INVALID_IDX →
        (get_from_decision_cache
          (backtrack_unassign s unassigned)).2.decision_cache_valid = false) :=
  ⟨rfl, rfl,
    fun idx hget hne => get_from_decision_cache_some _ idx hget hne,
    fun h => get_from_decision_cache_none _ h⟩

/-- Witness for `backtrack_cache_lookup_spec`, discharging the lookup
hypotheses on the concrete post-backtrack state of the counterexample. -/
theorem backtrack_cache_lookup_spec_witness :
    (5 : Nat) ≠ INVALID_IDX ∧
      cache_entry_valid (backtrack_unassign c2State [5]) 5 = true :=
  ⟨by decide,
    (backtrack_cache_lookup_spec c2State [5]).2.2.1 5 (by decide) (by decide)⟩

/-! ## Watched-literal propagation (`src/proplit.h`)

The arena is a `List PClause` (a clause reference is an index), the watch
table a `List (List PWatch)` indexed by literal, assignments a function
`values : Nat → Int`.  The delayed-watch buffer holds `(lit, blocking, ref)`
triples exactly as `kissat_delay_watching_large` pushes them.  An invalid
reference resolves to the default clause, which is garbage; the invariant
hypotheses rule this out. -/

/-- The clause fields propagation reads and writes. -/
structure PClause where
  lits : List Nat
  garbage : Bool
  searched : Nat
deriving DecidableEq

instance : Inhabited PClause := ⟨⟨[], true, 2⟩⟩

/-- The solver fields touched by `PROPAGATE_LITERAL`. -/
structure PropState where
  arena : List PClause
  watches : List (List PWatch)
  values : Nat → Int
  delayed : List (Nat × Nat × Nat)

/-- Propagation configuration: the SIMD dispatch flags and, per clause
reference, the word alignment of its literal array. -/
structure PropCfg where
  avx512 : Bool
  avx2 : Bool
  align : Nat → Nat

/-- `NOT (lit)`: flip the low bit. -/
def NOT (lit : Nat) : Nat := lit ^^^ 1

/-- A conflict result: the synthetic binary clause of
`kissat_binary_conflict`, or a large conflicting clause. -/
inductive PropConflict where
  | binaryConflict (notLit blocking : Nat)
  | clauseConflict (ref : Nat)
deriving DecidableEq

/-- `kissat_fast_binary_assign` (called at `proplit.h:128`), restricted to
the value vector: assign `blocking` true, its negation false. -/
def kissat_fast_binary_assign (s : PropState) (blocking : Nat) : PropState :=
  { s with values :=
      Function.update (Function.update s.values blocking 1) (NOT blocking) (-1) }

/-- `kissat_fast_assign_reference` (`proplit.h:210`, `proplit.h:346`),
restricted to the value vector. -/
def kissat_fast_assign_reference (s : PropState) (other : Nat) : PropState :=
  { s with values :=
      Function.update (Function.update s.values other 1) (NOT other) (-1) }

/-- The 2x-unrolled scalar search loops of the small-clause path
(`proplit.h:234-257` and `proplit.h:261-286`): test the pair `(i, i+1)`
while `i + 1 < stop`, then the single leftover index if `i < stop`.  The
fuel argument bounds the iterations. -/
def pairScan (values : Nat → Int) (lits : List Nat) (stop : Nat) :
    Nat → Nat → Option Nat
  | _, 0 => none
  | i, n + 1 =>
    if i + 1 < stop then
      if 0 ≤ values (lits.getD i 0) then some i
      else if 0 ≤ values (lits.getD (i + 1) 0) then some (i + 1)
      else pairScan values lits stop (i + 2) n
    else if i < stop then
      if 0 ≤ values (lits.getD i 0) then some i else none
    else none

/-- The replacement search of `PROPAGATE_LITERAL` for non-ternary clauses
(`proplit.h:226-306`): two-phase unrolled scalar search for sizes ≤ 8
(`searched..size`, then `2..searched`), two-phase
`kissat_simd_find_non_false` for larger clauses. -/
def findReplacementIdx (cfg : PropCfg) (values : Nat → Int) (ref : Nat)
    (c : PClause) : Option Nat :=
  if c.lits.length ≤ 8 then
    match pairScan values c.lits c.lits.length c.searched c.lits.length with
    | some j => some j
    | none => pairScan values c.lits c.searched 2 c.searched
  else
    match kissat_simd_find_non_false ⟨cfg.avx512, cfg.avx2, cfg.align ref⟩
        values c.lits c.searched c.lits.length with
    | some r => some r.2
    | none =>
      match kissat_simd_find_non_false ⟨cfg.avx512, cfg.avx2, cfg.align ref⟩
          values c.lits 2 c.searched with
      | some r => some r.2
      | none => none

/-- The clause rewrite when a replacement literal at index `j` is installed
(`proplit.h:174-181`, `proplit.h:313-320`):
`lits[0] = other; lits[1] = replacement; lits[j] = not_lit; searched = j`. -/
def rewriteClause (c : PClause) (other rep notLit j : Nat) : PClause :=
  { c with lits := ((c.lits.set 0 other).set 1 rep).set j notLit, searched := j }

/-- The `other` watched literal, `lits[0] ^ lits[1] ^ not_lit`
(`proplit.h:149`). -/
def otherLit (s : PropState) (ref notLit : Nat) : Nat :=
  ((s.arena.getD ref default).lits.getD 0 0) ^^^
    ((s.arena.getD ref default).lits.getD 1 0) ^^^ notLit

/-- Outcome of processing one watch: kept (possibly with a new blocking
literal), dropped from the list, or a conflict that breaks the scan. -/
inductive StepResult where
  | keep (w : PWatch) (s : PropState)
  | drop (s : PropState)
  | conflict (cf : PropConflict)

/-- The large-clause tail of the watch-processing body, reached with the
clause non-garbage, `other` computed and `values[other] ≤ 0`
(`proplit.h:163-349`). -/
def propStepBody (cfg : PropCfg) (notLit : Nat) (s : PropState)
    (blocking ref : Nat) (c : PClause) (other : Nat) : StepResult :=
  if c.lits.length = 3 then
    if 0 ≤ s.values (c.lits.getD 2 0) then
      .drop { s with
        arena := s.arena.set ref (rewriteClause c other (c.lits.getD 2 0) notLit 2),
        delayed := s.delayed ++ [(c.lits.getD 2 0, other, ref)] }
    else if s.values other ≠ 0 then .conflict (.clauseConflict ref)
    else .keep (.large blocking ref) (kissat_fast_assign_reference s other)
  else
    match findReplacementIdx cfg s.values ref c with
    | some j =>
      if 0 ≤ s.values (c.lits.getD j 0) then
        .drop { s with
          arena := s.arena.set ref (rewriteClause c other (c.lits.getD j 0) notLit j),
          delayed := s.delayed ++ [(c.lits.getD j 0, other, ref)] }
      else if s.values other ≠ 0 then .conflict (.clauseConflict ref)
      else .keep (.large blocking ref) (kissat_fast_assign_reference s other)
    | none =>
      if s.values other ≠ 0 then .conflict (.clauseConflict ref)
      else .keep (.large blocking ref) (kissat_fast_assign_reference s other)

/-- Processing of one watch of `watches[not_lit]` (`proplit.h:102-351`). -/
def propStep (cfg : PropCfg) (notLit : Nat) (s : PropState) : PWatch → StepResult
  | .binary blocking =>
    if 0 < s.values blocking then .keep (.binary blocking) s
    else if s.values blocking < 0 then .conflict (.binaryConflict notLit blocking)
    else .keep (.binary blocking) (kissat_fast_binary_assign s blocking)
  | .large blocking ref =>
    if 0 < s.values blocking then .keep (.large blocking ref) s
    else if (s.arena.getD ref default).garbage then .drop s
    else if 0 < s.values (otherLit s ref notLit) then
      .keep (.large (otherLit s ref notLit) ref) s
    else
      propStepBody cfg notLit s blocking ref (s.arena.getD ref default)
        (otherLit s ref notLit)

/-- The scan over `watches[not_lit]` with the in-place `p`/`q` compaction:
returns the final state, the compacted output list (on a conflict, the
current watch and the unprocessed rest are copied through, as the
post-break copy loop at `proplit.h:354-355` does) and the conflict. -/
def propagateWatches (cfg : PropCfg) (notLit : Nat) :
    PropState → List PWatch → PropState × List PWatch × Option PropConflict
  | s, [] => (s, [], none)
  | s, w :: ws =>
    match propStep cfg notLit s w with
    | .keep w2 s2 =>
      match propagateWatches cfg notLit s2 ws with
      | (s3, out, conf) => (s3, w2 :: out, conf)
    | .drop s2 => propagateWatches cfg notLit s2 ws
    | .conflict cf => (s, w :: ws, some cf)

/-- `kissat_watch_large_delayed` (`proplit.h:3-25`): drain the delayed
buffer in order, appending a large watch with the recorded blocking literal
to each target literal's list. -/
def kissat_watch_large_delayed (watches : List (List PWatch)) :
    List (Nat × Nat × Nat) → List (List PWatch)
  | [] => watches
  | (lit, blocking, ref) :: ds =>
    kissat_watch_large_delayed
      (watches.set lit (watches.getD lit [] ++ [.large blocking ref])) ds

/-- `PROPAGATE_LITERAL` (`proplit.h:57-361`): scan `watches[not_lit]`,
install the compacted list, drain the delayed buffer. -/
def PROPAGATE_LITERAL (cfg : PropCfg) (s : PropState) (lit : Nat) :
    PropState × Option PropConflict :=
  match propagateWatches cfg (NOT lit) s (s.watches.getD (NOT lit) []) with
  | (s1, out, conf) =>
    ({ s1 with
        watches := kissat_watch_large_delayed (s1.watches.set (NOT lit) out)
          s1.delayed,
        delayed := [] }, conf)

/-- The watched-literal invariant for one watch: a large watch references an
existing clause whose first two literals contain the list's literal. -/
def watchedOKb (arena : List PClause) (l : Nat) : PWatch → Bool
  | .binary _ => true
  | .large _ ref =>
    match arena.get? ref with
    | some c => (c.lits.getD 0 0 == l) || (c.lits.getD 1 0 == l)
    | none => false

/-- The watched-literal invariant (spec §8, property 1): every watch in
every list satisfies `watchedOKb`. -/
def watchInvariant (s : PropState) : Prop :=
  ∀ l, l < s.watches.length → ∀ w ∈ s.watches.getD l [], watchedOKb s.arena l w = true

/-- Structural well-formedness of a watched clause, from the code's own
assertions and maintained fields: `searched` stays in `[2, size]`
(initialized to 2, later set to a found index), size at least 3 for large
watches, and the two watched literals distinct
(`assert (lits[0] != lits[1])`, `proplit.h:150`). -/
def clauseWFb (c : PClause) : Bool :=
  decide (2 ≤ c.searched) && decide (c.searched ≤ c.lits.length) &&
    decide (3 ≤ c.lits.length) && !(c.lits.getD 0 0 == c.lits.getD 1 0)

/-- Well-formedness of a watch: a large watch resolves to a clause that is
garbage or structurally well formed. -/
def watchWFb (arena : List PClause) : PWatch → Bool
  | .binary _ => true
  | .large _ ref =>
    match arena.get? ref with
    | some c => c.garbage || clauseWFb c
    | none => false

/-- The clause references of the large watches of a list, in order. -/
def largeRefs : List PWatch → List Nat
  | [] => []
  | .binary _ :: ws => largeRefs ws
  | .large _ ref :: ws => ref :: largeRefs ws

/-- The clause references of the delayed-watch buffer. -/
def delayedRefs (ds : List (Nat × Nat × Nat)) : List Nat :=
  ds.map fun d => d.2.2

/-- Invariant of a delayed entry `(lit, blocking, ref)`: once drained it
will be a watch for `lit`, so the clause's first two literals must contain
`lit`. -/
def delayedOKb (arena : List PClause) (d : Nat × Nat × Nat) : Bool :=
  watchedOKb arena d.1 (.large d.2.1 d.2.2)

/-- The clause reference of a watch, if any. -/
def refOf : PWatch → Option Nat
  | .binary _ => none
  | .large _ ref => some ref

theorem xor_xor_cancel_left (a b : Nat) : a ^^^ b ^^^ a = b := by
  rw [Nat.xor_comm a b, Nat.xor_assoc, Nat.xor_self, Nat.xor_zero]

theorem xor_xor_cancel_right (a b : Nat) : a ^^^ b ^^^ b = a := by
  rw [Nat.xor_assoc, Nat.xor_self, Nat.xor_zero]

theorem pairScan_range {values : Nat → Int} {lits : List Nat}
    {stop i n j : Nat} (h : pairScan values lits stop i n = some j) :
    i ≤ j ∧ j < stop := by
  induction n generalizing i with
  | zero => simp [pairScan] at h
  | succ n ih =>
    simp only [pairScan] at h
    split at h
    · rename_i hpair
      split at h
      · obtain rfl := Option.some.inj h
        omega
      · split at h
        · obtain rfl := Option.some.inj h
          omega
        · have := ih h
          omega
    · split at h
      · rename_i hnp hlast
        split at h
        · obtain rfl := Option.some.inj h
          omega
        · cases h
      · cases h

theorem findReplacementIdx_range {cfg : PropCfg} {values : Nat → Int}
    {ref : Nat} {c : PClause} {j : Nat}
    (h2 : 2 ≤ c.searched) (hs : c.searched ≤ c.lits.length)
    (h : findReplacementIdx cfg values ref c = some j) :
    2 ≤ j ∧ j < c.lits.length := by
  unfold findReplacementIdx at h
  split at h
  · split at h
    · rename_i j1 heq
      obtain rfl := Option.some.inj h
      have := pairScan_range heq
      omega
    · have := pairScan_range h
      omega
  · split at h
    · rename_i r heq
      obtain rfl := Option.some.inj h
      have := kissat_simd_find_non_false_range
        (show kissat_simd_find_non_false ⟨cfg.avx512, cfg.avx2, cfg.align ref⟩
          values c.lits c.searched c.lits.length = some (r.1, r.2) from by
            rw [heq])
      omega
    · split at h
      · rename_i r heq
        obtain rfl := Option.some.inj h
        have := kissat_simd_find_non_false_range
          (show kissat_simd_find_non_false ⟨cfg.avx512, cfg.avx2, cfg.align ref⟩
            values c.lits 2 c.searched = some (r.1, r.2) from by rw [heq])
        omega
      · cases h

theorem getD_of_get?_some {arena : List PClause} {ref : Nat} {c : PClause}
    (hc : arena.get? ref = some c) : arena.getD ref default = c := by
  rw [List.getD_eq_getElem?_getD, ← List.get?_eq_getElem?, hc]
  rfl

theorem watchedOKb_set_ne {arena : List PClause} {q : Nat} {c2 : PClause}
    {l : Nat} {w : PWatch} (hq : refOf w ≠ some q) :
    watchedOKb (arena.set q c2) l w = watchedOKb arena l w := by
  cases w with
  | binary b => rfl
  | large b ref =>
    have hrq : ref ≠ q := fun hh => hq (by rw [refOf, hh])
    show (match (arena.set q c2).get? ref with
      | some c => (c.lits.getD 0 0 == l) || (c.lits.getD 1 0 == l)
      | none => false) = _
    rw [List.get?_set_ne _ _ (Ne.symm hrq)]
    rfl

theorem watchWFb_set_ne {arena : List PClause} {q : Nat} {c2 : PClause}
    {w : PWatch} (hq : refOf w ≠ some q) :
    watchWFb (arena.set q c2) w = watchWFb arena w := by
  cases w with
  | binary b => rfl
  | large b ref =>
    have hrq : ref ≠ q := fun hh => hq (by rw [refOf, hh])
    show (match (arena.set q c2).get? ref with
      | some c => c.garbage || clauseWFb c
      | none => false) = _
    rw [List.get?_set_ne _ _ (Ne.symm hrq)]
    rfl

theorem rewriteClause_lits {c : PClause} {other rep notLit j : Nat}
    (h2 : 2 ≤ j) (hj : j < c.lits.length) :
    (rewriteClause c other rep notLit j).lits.getD 0 0 = other ∧
      (rewriteClause c other rep notLit j).lits.getD 1 0 = rep := by
  unfold rewriteClause
  constructor
  · show (((c.lits.set 0 other).set 1 rep).set j notLit).getD 0 0 = other
    rw [List.getD_eq_getElem?_getD, List.getElem?_set_ne (by omega),
      List.getElem?_set_ne (by omega), List.getElem?_set_self (by omega)]
    rfl
  · show (((c.lits.set 0 other).set 1 rep).set j notLit).getD 1 0 = rep
    rw [List.getD_eq_getElem?_getD, List.getElem?_set_ne (by omega),
      List.getElem?_set_self (by simp; omega)]
    rfl

theorem otherLit_spec (s : PropState) (ref notLit : Nat) (c : PClause)
    (hc : s.arena.get? ref = some c)
    (hne : c.lits.getD 0 0 ≠ c.lits.getD 1 0)
    (hcont : c.lits.getD 0 0 = notLit ∨ c.lits.getD 1 0 = notLit) :
    ∀ l, l ≠ notLit → (c.lits.getD 0 0 = l ∨ c.lits.getD 1 0 = l) →
      l = otherLit s ref notLit := by
  intro l hl hcl
  have hgetD := getD_of_get?_some hc
  unfold otherLit
  rw [hgetD]
  rcases hcont with h0 | h1
  · rw [h0, xor_xor_cancel_left]
    rcases hcl with hcl | hcl
    · exact absurd (h0 ▸ hcl) (fun hh => hl hh.symm)
    · exact hcl.symm
  · rw [h1, xor_xor_cancel_right]
    rcases hcl with hcl | hcl
    · exact hcl.symm
    · exact absurd (h1 ▸ hcl) (fun hh => hl hh.symm)

theorem propStepBody_cases (cfg : PropCfg) (notLit : Nat) (s : PropState)
    (blocking ref : Nat) (c : PClause)
    (hwf : clauseWFb c = true) :
    (∃ s2, propStepBody cfg notLit s blocking ref c (otherLit s ref notLit) =
        .keep (.large blocking ref) s2 ∧
      s2.watches = s.watches ∧ s2.arena = s.arena ∧ s2.delayed = s.delayed) ∨
    (∃ s2 c2 rep,
      propStepBody cfg notLit s blocking ref c (otherLit s ref notLit) = .drop s2 ∧
      s2.watches = s.watches ∧
      s2.delayed = s.delayed ++ [(rep, otherLit s ref notLit, ref)] ∧
      s2.arena = s.arena.set ref c2 ∧
      c2.lits.getD 0 0 = otherLit s ref notLit ∧ c2.lits.getD 1 0 = rep) ∨
    (∃ cf, propStepBody cfg notLit s blocking ref c (otherLit s ref notLit) =
      .conflict cf) := by
  have hwf2 : 2 ≤ c.searched ∧ c.searched ≤ c.lits.length ∧ 3 ≤ c.lits.length := by
    unfold clauseWFb at hwf
    simp only [Bool.and_eq_true, decide_eq_true_eq] at hwf
    exact ⟨hwf.1.1.1, hwf.1.1.2, hwf.1.2⟩
  unfold propStepBody
  split
  · rename_i hlen3
    split
    · refine Or.inr (Or.inl ⟨_, _, c.lits.getD 2 0, rfl, rfl, rfl, rfl, ?_, ?_⟩)
      · exact (rewriteClause_lits (by omega) (by omega)).1
      · exact (rewriteClause_lits (by omega) (by omega)).2
    · split
      · exact Or.inr (Or.inr ⟨_, rfl⟩)
      · exact Or.inl ⟨_, rfl, rfl, rfl, rfl⟩
  · split
    · rename_i j heq
      have hj := findReplacementIdx_range hwf2.1 hwf2.2.1 heq
      split
      · refine Or.inr (Or.inl ⟨_, _, c.lits.getD j 0, rfl, rfl, rfl, rfl, ?_, ?_⟩)
        · exact (rewriteClause_lits (by omega) (by omega)).1
        · exact (rewriteClause_lits (by omega) (by omega)).2
      · split
        · exact Or.inr (Or.inr ⟨_, rfl⟩)
        · exact Or.inl ⟨_, rfl, rfl, rfl, rfl⟩
    · split
      · exact Or.inr (Or.inr ⟨_, rfl⟩)
      · exact Or.inl ⟨_, rfl, rfl, rfl, rfl⟩

theorem propStep_cases (cfg : PropCfg) (notLit : Nat) (s : PropState) (w : PWatch)
    (hB : watchedOKb s.arena notLit w = true)
    (hWF : watchWFb s.arena w = true) :
    (∃ w2 s2, propStep cfg notLit s w = .keep w2 s2 ∧
      s2.watches = s.watches ∧ s2.arena = s.arena ∧ s2.delayed = s.delayed ∧
      watchedOKb s.arena notLit w2 = true ∧ refOf w2 = refOf w) ∨
    (propStep cfg notLit s w = .drop s) ∨
    (∃ s2 c c2 other rep ref,
      refOf w = some ref ∧
      propStep cfg notLit s w = .drop s2 ∧
      s.arena.get? ref = some c ∧
      s2.watches = s.watches ∧
      s2.delayed = s.delayed ++ [(rep, other, ref)] ∧
      s2.arena = s.arena.set ref c2 ∧
      c2.lits.getD 0 0 = other ∧ c2.lits.getD 1 0 = rep ∧
      (∀ l, l ≠ notLit → (c.lits.getD 0 0 = l ∨ c.lits.getD 1 0 = l) → l = other)) ∨
    (∃ cf, propStep cfg notLit s w = .conflict cf) := by
  cases w with
  | binary blocking =>
    simp only [propStep]
    split
    · exact Or.inl ⟨_, _, rfl, rfl, rfl, rfl, rfl, rfl⟩
    · split
      · exact Or.inr (Or.inr (Or.inr ⟨_, rfl⟩))
      · exact Or.inl ⟨_, _, rfl, rfl, rfl, rfl, rfl, rfl⟩
  | large blocking ref =>
    have hsome : ∃ c, s.arena.get? ref = some c ∧
        (c.lits.getD 0 0 = notLit ∨ c.lits.getD 1 0 = notLit) := by
      revert hB
      show (match s.arena.get? ref with
        | some c => (c.lits.getD 0 0 == notLit) || (c.lits.getD 1 0 == notLit)
        | none => false) = true → _
      rcases h : s.arena.get? ref with _ | c
      · intro hB; cases hB
      · intro hB
        refine ⟨c, rfl, ?_⟩
        rcases Bool.or_eq_true .. |>.mp hB with hb | hb
        · exact Or.inl (by simpa using hb)
        · exact Or.inr (by simpa using hb)
    obtain ⟨c, hc, hcont⟩ := hsome
    have hgetD := getD_of_get?_some hc
    simp only [propStep]
    split
    · exact Or.inl ⟨_, _, rfl, rfl, rfl, rfl, hB, rfl⟩
    · rename_i hbv
      split
      · exact Or.inr (Or.inl rfl)
      · rename_i hgarb
        split
        · refine Or.inl ⟨_, _, rfl, rfl, rfl, rfl, ?_, rfl⟩
          exact hB
        · rename_i hov
          have hwfc : clauseWFb c = true := by
            revert hWF
            show (match s.arena.get? ref with
              | some c => c.garbage || clauseWFb c
              | none => false) = true → _
            rw [hc]
            intro hWF
            rcases Bool.or_eq_true .. |>.mp hWF with hb | hb
            · rw [hgetD] at hgarb
              exact absurd hb (by simpa using hgarb)
            · exact hb
          have hne01 : c.lits.getD 0 0 ≠ c.lits.getD 1 0 := by
            unfold clauseWFb at hwfc
            simp only [Bool.and_eq_true, Bool.not_eq_true', beq_eq_false_iff_ne,
              ne_eq] at hwfc
            exact hwfc.2
          rw [hgetD]
          rcases propStepBody_cases cfg notLit s blocking ref c hwfc with
            ⟨s2, heq, h1, h2, h3⟩ | ⟨s2, c2, rep, heq, h1, h2, h3, h4, h5⟩ |
            ⟨cf, heq⟩
          · refine Or.inl ⟨_, _, heq, h1, h2, h3, ?_, rfl⟩
            show watchedOKb s.arena notLit (PWatch.large blocking ref) = true
            exact hB
          · refine Or.inr (Or.inr (Or.inl
              ⟨s2, c, c2, otherLit s ref notLit, rep, ref, rfl, heq, hc,
                h1, h2, h3, h4, h5, ?_⟩))
            exact otherLit_spec s ref notLit c hc hne01 hcont
          · exact Or.inr (Or.inr (Or.inr ⟨cf, heq⟩))

theorem lt_length_of_get?_some {arena : List PClause} {ref : Nat} {c : PClause}
    (hc : arena.get? ref = some c) : ref < arena.length := by
  rw [List.get?_eq_getElem?] at hc
  exact (List.getElem?_eq_some_iff.mp hc).1

theorem watchedOKb_congr {arena arena2 : List PClause} {l : Nat} {w : PWatch}
    (h : ∀ r, refOf w = some r → arena2.get? r = arena.get? r) :
    watchedOKb arena2 l w = watchedOKb arena l w := by
  cases w with
  | binary b => rfl
  | large b ref =>
    show (match arena2.get? ref with
      | some c => (c.lits.getD 0 0 == l) || (c.lits.getD 1 0 == l)
      | none => false) = watchedOKb arena l (.large b ref)
    rw [h ref rfl]
    rfl

theorem refOf_eq_some {w : PWatch} {ref : Nat} (h : refOf w = some ref) :
    ∃ b, w = .large b ref := by
  cases w with
  | binary b => cases h
  | large b r =>
    refine ⟨b, ?_⟩
    have : r = ref := by simpa [refOf] using h
    rw [this]

theorem largeRefs_sublist (w : PWatch) (ws : List PWatch) :
    (largeRefs ws).Sublist (largeRefs (w :: ws)) := by
  cases w with
  | binary b => exact List.Sublist.refl _
  | large b r => exact List.sublist_cons_self r _

theorem mem_largeRefs {ws : List PWatch} {b r : Nat}
    (h : PWatch.large b r ∈ ws) : r ∈ largeRefs ws := by
  induction ws with
  | nil => cases h
  | cons w3 ws3 ih3 =>
    rcases List.mem_cons.mp h with rfl | hw3
    · exact List.mem_cons_self _ _
    · cases w3 with
      | binary b3 => exact ih3 hw3
      | large b3 r3 => exact List.mem_cons_of_mem _ (ih3 hw3)

theorem propagateWatches_spec (cfg : PropCfg) (notLit : Nat) (ws : List PWatch)
    (s : PropState)
    (hA : ∀ l, l ≠ notLit → ∀ w ∈ s.watches.getD l [],
      watchedOKb s.arena l w = true)
    (hB : ∀ w ∈ ws, watchedOKb s.arena notLit w = true ∧
      watchWFb s.arena w = true)
    (hC : ∀ d ∈ s.delayed, delayedOKb s.arena d = true)
    (hD : (largeRefs ws ++ delayedRefs s.delayed).Nodup) :
    (propagateWatches cfg notLit s ws).1.watches = s.watches ∧
      (∀ l, l ≠ notLit →
        ∀ w ∈ (propagateWatches cfg notLit s ws).1.watches.getD l [],
        watchedOKb (propagateWatches cfg notLit s ws).1.arena l w = true) ∧
      (∀ w ∈ (propagateWatches cfg notLit s ws).2.1,
        watchedOKb (propagateWatches cfg notLit s ws).1.arena notLit w = true) ∧
      (∀ d ∈ (propagateWatches cfg notLit s ws).1.delayed,
        delayedOKb (propagateWatches cfg notLit s ws).1.arena d = true) ∧
      (∀ q, q ∉ largeRefs ws →
        (propagateWatches cfg notLit s ws).1.arena.get? q = s.arena.get? q) := by
  induction ws generalizing s with
  | nil =>
    refine ⟨rfl, hA, ?_, hC, fun q _ => rfl⟩
    intro w hw
    simp [propagateWatches] at hw
  | cons w ws ih =>
    obtain ⟨hBw, hWFw⟩ := hB w (List.mem_cons_self _ _)
    have hBtail : ∀ w2 ∈ ws, watchedOKb s.arena notLit w2 = true ∧
        watchWFb s.arena w2 = true :=
      fun w2 hw2 => hB w2 (List.mem_cons_of_mem _ hw2)
    rcases propStep_cases cfg notLit s w hBw hWFw with
      ⟨w2, s2, heq, hw2w, hw2a, hw2d, hok2, href2⟩ | heq |
      ⟨s2, c, c2, other, rep, ref, href, heq, hc, hsw, hsd, hsa, h01, h11, hlspec⟩ |
      ⟨cf, heq⟩
    · -- keep
      have ihres := ih s2
        (by rw [hw2w, hw2a]; exact hA)
        (by rw [hw2a]; exact hBtail)
        (by rw [hw2d, hw2a]; exact hC)
        (by rw [hw2d]
            exact hD.sublist ((largeRefs_sublist w ws).append (List.Sublist.refl _)))
      obtain ⟨ih1, ih2, ih3, ih4, ih5⟩ := ihres
      have hexp : propagateWatches cfg notLit s (w :: ws) =
          ((propagateWatches cfg notLit s2 ws).1,
            w2 :: (propagateWatches cfg notLit s2 ws).2.1,
            (propagateWatches cfg notLit s2 ws).2.2) := by
        show (match propStep cfg notLit s w with
          | .keep w2 s2 =>
            match propagateWatches cfg notLit s2 ws with
            | (s3, out, conf) => (s3, w2 :: out, conf)
          | .drop s2 => propagateWatches cfg notLit s2 ws
          | .conflict cf => (s, w :: ws, some cf)) = _
        rw [heq]
      rw [hexp]
      refine ⟨by rw [ih1, hw2w], ih2, ?_, ih4, ?_⟩
      · intro w3 hw3
        rcases List.mem_cons.mp hw3 with rfl | hw3
        · have harena : ∀ r, refOf w3 = some r →
              (propagateWatches cfg notLit s2 ws).1.arena.get? r =
                s2.arena.get? r := by
            intro r hr
            obtain ⟨b, hwb⟩ := refOf_eq_some (href2 ▸ hr)
            have hnd := hD
            rw [hwb, show largeRefs (PWatch.large b r :: ws) = r :: largeRefs ws
              from rfl, List.cons_append, List.nodup_cons] at hnd
            exact ih5 r (fun hh => hnd.1 (List.mem_append_left _ hh))
          rw [watchedOKb_congr harena, hw2a]
          exact hok2
        · exact ih3 w3 hw3
      · intro q hq
        rw [ih5 q (fun hh => hq ((largeRefs_sublist w ws).mem hh)), hw2a]
    · -- garbage drop
      have ihres := ih s hA hBtail hC
        (hD.sublist ((largeRefs_sublist w ws).append (List.Sublist.refl _)))
      obtain ⟨ih1, ih2, ih3, ih4, ih5⟩ := ihres
      have hexp : propagateWatches cfg notLit s (w :: ws) =
          propagateWatches cfg notLit s ws := by
        show (match propStep cfg notLit s w with
          | .keep w2 s2 =>
            match propagateWatches cfg notLit s2 ws with
            | (s3, out, conf) => (s3, w2 :: out, conf)
          | .drop s2 => propagateWatches cfg notLit s2 ws
          | .conflict cf => (s, w :: ws, some cf)) = _
        rw [heq]
      rw [hexp]
      exact ⟨ih1, ih2, ih3, ih4,
        fun q hq => ih5 q (fun hh => hq ((largeRefs_sublist w ws).mem hh))⟩
    · -- rewrite drop
      obtain ⟨b, rfl⟩ := refOf_eq_some href
      have hrefslist : largeRefs (PWatch.large b ref :: ws) =
          ref :: largeRefs ws := rfl
      have hnd := hD
      rw [hrefslist, List.cons_append, List.nodup_cons] at hnd
      have hreflt : ref < s.arena.length := lt_length_of_get?_some hc
      have hset_self : s2.arena.get? ref = some c2 := by
        rw [hsa, List.get?_eq_getElem?,
          List.getElem?_set_self (by simpa using hreflt)]
      have hset_ne : ∀ q, q ≠ ref → s2.arena.get? q = s.arena.get? q := by
        intro q hq
        rw [hsa, List.get?_eq_getElem?, List.getElem?_set_ne (Ne.symm hq),
          ← List.get?_eq_getElem?]
      have hA2 : ∀ l, l ≠ notLit → ∀ w2 ∈ s2.watches.getD l [],
          watchedOKb s2.arena l w2 = true := by
        intro l hl w2 hw2
        rw [hsw] at hw2
        have hold := hA l hl w2 hw2
        cases w2 with
        | binary b2 => rfl
        | large b2 r2 =>
          by_cases hr2 : r2 = ref
          · subst hr2
            show (match s2.arena.get? r2 with
              | some cc => (cc.lits.getD 0 0 == l) || (cc.lits.getD 1 0 == l)
              | none => false) = true
            rw [hset_self]
            show ((c2.lits.getD 0 0 == l) || (c2.lits.getD 1 0 == l)) = true
            have hcontl : c.lits.getD 0 0 = l ∨ c.lits.getD 1 0 = l := by
              revert hold
              show (match s.arena.get? r2 with
                | some cc => (cc.lits.getD 0 0 == l) || (cc.lits.getD 1 0 == l)
                | none => false) = true → _
              rw [hc]
              intro hold
              rcases Bool.or_eq_true .. |>.mp hold with hb | hb
              · exact Or.inl (by simpa using hb)
              · exact Or.inr (by simpa using hb)
            have hlother : l = other := hlspec l hl hcontl
            rw [hlother]
            have h01b : (c2.lits.getD 0 0 == other) = true := by
              rw [h01]
              simp
            rw [h01b, Bool.true_or]
          · rw [hsa, watchedOKb_set_ne (by
              intro hh
              exact hr2 (by simpa [refOf] using hh))]
            exact hold
      have hB2 : ∀ w2 ∈ ws, watchedOKb s2.arena notLit w2 = true ∧
          watchWFb s2.arena w2 = true := by
        intro w2 hw2
        obtain ⟨hb2, hwf2⟩ := hBtail w2 hw2
        cases w2 with
        | binary b2 => exact ⟨rfl, rfl⟩
        | large b2 r2 =>
          have hr2 : r2 ≠ ref := by
            intro hh
            subst hh
            exact hnd.1 (List.mem_append_left _ (mem_largeRefs hw2))
          have hrne : refOf (PWatch.large b2 r2) ≠ some ref := by
            intro hh
            exact hr2 (by simpa [refOf] using hh)
          constructor
          · rw [hsa, watchedOKb_set_ne hrne]
            exact hb2
          · rw [hsa, watchWFb_set_ne hrne]
            exact hwf2
      have hC2 : ∀ d ∈ s2.delayed, delayedOKb s2.arena d = true := by
        intro d hd
        rw [hsd] at hd
        rcases List.mem_append.mp hd with hd | hd
        · have hold := hC d hd
          have hdr : d.2.2 ≠ ref := by
            intro hh
            refine hnd.1 (List.mem_append_right _ ?_)
            rw [← hh]
            exact List.mem_map_of_mem _ hd
          show watchedOKb s2.arena d.1 (.large d.2.1 d.2.2) = true
          rw [hsa, watchedOKb_set_ne (by
            intro hh
            exact hdr (by simpa [refOf] using hh))]
          exact hold
        · rw [List.mem_singleton] at hd
          subst hd
          show (match s2.arena.get? ref with
            | some cc => (cc.lits.getD 0 0 == rep) || (cc.lits.getD 1 0 == rep)
            | none => false) = true
          rw [hset_self]
          show ((c2.lits.getD 0 0 == rep) || (c2.lits.getD 1 0 == rep)) = true
          have h11b : (c2.lits.getD 1 0 == rep) = true := by
            rw [h11]
            simp
          rw [h11b, Bool.or_true]
      have hD2 : (largeRefs ws ++ delayedRefs s2.delayed).Nodup := by
        rw [hsd, show delayedRefs (s.delayed ++ [(rep, other, ref)]) =
          delayedRefs s.delayed ++ [ref] from by simp [delayedRefs]]
        rw [← List.append_assoc]
        have hperm : ((largeRefs ws ++ delayedRefs s.delayed) ++ [ref]).Perm
            (ref :: (largeRefs ws ++ delayedRefs s.delayed)) :=
          List.perm_append_singleton _ _
        exact hperm.nodup_iff.mpr (List.nodup_cons.mpr ⟨hnd.1, hnd.2⟩)
      have ihres := ih s2 hA2 hB2 hC2 hD2
      obtain ⟨ih1, ih2, ih3, ih4, ih5⟩ := ihres
      have hexp : propagateWatches cfg notLit s (PWatch.large b ref :: ws) =
          propagateWatches cfg notLit s2 ws := by
        show (match propStep cfg notLit s (PWatch.large b ref) with
          | .keep w2 s2 =>
            match propagateWatches cfg notLit s2 ws with
            | (s3, out, conf) => (s3, w2 :: out, conf)
          | .drop s2 => propagateWatches cfg notLit s2 ws
          | .conflict cf => (s, PWatch.large b ref :: ws, some cf)) = _
        rw [heq]
      rw [hexp]
      refine ⟨by rw [ih1, hsw], ih2, ih3, ih4, ?_⟩
      intro q hq
      rw [hrefslist] at hq
      have hq1 : q ≠ ref := fun hh => hq (hh ▸ List.mem_cons_self _ _)
      have hq2 : q ∉ largeRefs ws := fun hh => hq (List.mem_cons_of_mem _ hh)
      rw [ih5 q hq2]
      exact hset_ne q hq1
    · -- conflict
      have hexp : propagateWatches cfg notLit s (w :: ws) =
          (s, w :: ws, some cf) := by
        show (match propStep cfg notLit s w with
          | .keep w2 s2 =>
            match propagateWatches cfg notLit s2 ws with
            | (s3, out, conf) => (s3, w2 :: out, conf)
          | .drop s2 => propagateWatches cfg notLit s2 ws
          | .conflict cf => (s, w :: ws, some cf)) = _
        rw [heq]
      rw [hexp]
      refine ⟨rfl, hA, ?_, hC, fun q _ => rfl⟩
      intro w3 hw3
      rcases List.mem_cons.mp hw3 with rfl | hw3
      · exact hBw
      · exact (hBtail w3 hw3).1

theorem watch_large_delayed_spec (arena : List PClause)
    (D : List (Nat × Nat × Nat)) (W : List (List PWatch))
    (hW : ∀ l, l < W.length → ∀ w ∈ W.getD l [], watchedOKb arena l w = true)
    (hD : ∀ d ∈ D, delayedOKb arena d = true) :
    ∀ l, l < (kissat_watch_large_delayed W D).length →
      ∀ w ∈ (kissat_watch_large_delayed W D).getD l [],
        watchedOKb arena l w = true := by
  induction D generalizing W with
  | nil => exact hW
  | cons d ds ih =>
    rcases d with ⟨dlit, dblocking, dref⟩
    have hstep : ∀ l,
        l < (W.set dlit (W.getD dlit [] ++ [.large dblocking dref])).length →
        ∀ w ∈ (W.set dlit (W.getD dlit [] ++ [.large dblocking dref])).getD l [],
          watchedOKb arena l w = true := by
      intro l hl w hw
      rw [List.length_set] at hl
      by_cases hll : l = dlit
      · subst hll
        rw [List.getD_eq_getElem?_getD, List.getElem?_set_self hl] at hw
        have hw2 : w ∈ W.getD l [] ++ [PWatch.large dblocking dref] := by
          simpa using hw
        rcases List.mem_append.mp hw2 with hw3 | hw3
        · exact hW l hl w hw3
        · rw [List.mem_singleton] at hw3
          subst hw3
          exact hD (l, dblocking, dref) (List.mem_cons_self _ _)
      · rw [List.getD_eq_getElem?_getD, List.getElem?_set_ne (Ne.symm hll),
          ← List.getD_eq_getElem?_getD] at hw
        exact hW l hl w hw
    exact ih _ hstep (fun d2 hd2 => hD d2 (List.mem_cons_of_mem _ hd2))

/-- C7: if before a call to `PROPAGATE_LITERAL` every watch in every list
`watches[l]` references a clause whose first two literals contain `l`, then
after the call returns — including draining the delayed-watch buffer — the
same holds for every literal.  The auxiliary hypotheses are the structural
facts the code itself asserts and maintains: the scanned list holds each
clause reference at most once, the referenced non-garbage clauses have
distinct watched literals, at least 3 literals and `searched ∈ [2, size]`,
and the delayed buffer is empty on entry
(`assert (EMPTY_STACK (solver->delayed))`). -/
theorem PROPAGATE_LITERAL_preserves_watch_invariant (cfg : PropCfg)
    (s : PropState) (lit : Nat)
    (hInv : watchInvariant s)
    (hND : (largeRefs (s.watches.getD (NOT lit) [])).Nodup)
    (hWF : ∀ w ∈ s.watches.getD (NOT lit) [], watchWFb s.arena w = true)
    (hDel : s.delayed = []) :
    watchInvariant (PROPAGATE_LITERAL cfg s lit).1 := by
  have hA : ∀ l, l ≠ NOT lit → ∀ w ∈ s.watches.getD l [],
      watchedOKb s.arena l w = true := by
    intro l _ w hw
    by_cases hl : l < s.watches.length
    · exact hInv l hl w hw
    · rw [List.getD_eq_getElem?_getD,
        List.getElem?_eq_none (by omega)] at hw
      cases hw
  have hB : ∀ w ∈ s.watches.getD (NOT lit) [],
      watchedOKb s.arena (NOT lit) w = true ∧ watchWFb s.arena w = true := by
    intro w hw
    refine ⟨?_, hWF w hw⟩
    by_cases hl : NOT lit < s.watches.length
    · exact hInv (NOT lit) hl w hw
    · rw [List.getD_eq_getElem?_getD,
        List.getElem?_eq_none (by omega)] at hw
      cases hw
  have hC : ∀ d ∈ s.delayed, delayedOKb s.arena d = true := by
    rw [hDel]
    intro d hd
    cases hd
  have hD2 : (largeRefs (s.watches.getD (NOT lit) []) ++
      delayedRefs s.delayed).Nodup := by
    rw [hDel]
    simpa [delayedRefs] using hND
  obtain ⟨sp1, sp2, sp3, sp4, sp5⟩ :=
    propagateWatches_spec cfg (NOT lit) (s.watches.getD (NOT lit) []) s
      hA hB hC hD2
  rcases hr : propagateWatches cfg (NOT lit) s (s.watches.getD (NOT lit) [])
    with ⟨s1, out, conf⟩
  rw [hr] at sp1 sp2 sp3 sp4
  have hfinal : (PROPAGATE_LITERAL cfg s lit).1 =
      { s1 with
        watches := kissat_watch_large_delayed (s1.watches.set (NOT lit) out)
          s1.delayed,
        delayed := [] } := by
    show ((match propagateWatches cfg (NOT lit) s (s.watches.getD (NOT lit) [])
      with
      | (s1, out, conf) =>
        ({ s1 with
            watches := kissat_watch_large_delayed (s1.watches.set (NOT lit) out)
              s1.delayed,
            delayed := [] }, conf)) : PropState × Option PropConflict).1 = _
    rw [hr]
  rw [hfinal]
  intro l hl w hw
  have hW1 : ∀ l2, l2 < (s1.watches.set (NOT lit) out).length →
      ∀ w2 ∈ (s1.watches.set (NOT lit) out).getD l2 [],
        watchedOKb s1.arena l2 w2 = true := by
    intro l2 hl2 w2 hw2
    rw [List.length_set] at hl2
    by_cases hln : l2 = NOT lit
    · subst hln
      rw [List.getD_eq_getElem?_getD, List.getElem?_set_self hl2] at hw2
      exact sp3 w2 (by simpa using hw2)
    · rw [List.getD_eq_getElem?_getD, List.getElem?_set_ne (Ne.symm hln),
        ← List.getD_eq_getElem?_getD] at hw2
      exact sp2 l2 hln w2 hw2
  exact watch_large_delayed_spec s1.arena s1.delayed
    (s1.watches.set (NOT lit) out) hW1 sp4 l hl w hw

/-- Concrete witness state for the propagation invariant: one ternary clause
`(2 ∨ 4 ∨ 6)` watched on literals 2 and 4; propagating literal 3 falsifies
literal 2 and moves that watch to the unassigned literal 6 through the
delayed buffer. -/
def c7State : PropState :=
  { arena := [⟨[2, 4, 6], false, 2⟩],
    watches := [[], [], [.large 4 0], [], [.large 2 0], [], [], []],
    values := fun n =>
      if n = 3 then 1 else if n = 6 then 0 else if n = 7 then 0 else -1,
    delayed := [] }

/-- Witness configuration: no SIMD extensions. -/
def c7Cfg : PropCfg := ⟨false, false, fun _ => 0⟩

/-- Witness for `PROPAGATE_LITERAL_preserves_watch_invariant` on `c7State`,
propagating literal 3. -/
theorem PROPAGATE_LITERAL_preserves_watch_invariant_witness :
    watchInvariant c7State ∧
      (largeRefs (c7State.watches.getD (NOT 3) [])).Nodup ∧
      (∀ w ∈ c7State.watches.getD (NOT 3) [], watchWFb c7State.arena w = true) ∧
      c7State.delayed = [] ∧
      watchInvariant (PROPAGATE_LITERAL c7Cfg c7State 3).1 := by
  have h1 : watchInvariant c7State := by
    unfold watchInvariant
    decide
  have h2 : (largeRefs (c7State.watches.getD (NOT 3) [])).Nodup := by decide
  have h3 : ∀ w ∈ c7State.watches.getD (NOT 3) [],
      watchWFb c7State.arena w = true := by decide
  exact ⟨h1, h2, h3, rfl,
    PROPAGATE_LITERAL_preserves_watch_invariant c7Cfg c7State 3 h1 h2 h3 rfl⟩

end Kissat
